import Mathlib

/-!
Verification of the graphics attachment and command-synthesis engine of the
`dezren39/alacritty` fork (graphics branch).

The embedding follows the source:
  * `alacritty_terminal/src/graphics/mod.rs`: `ColorType`, `ResizeParameter`,
    `ResizeCommand`, `GraphicData`, `GraphicData::resized`, `GraphicsLine`,
    `Graphics` (attach / clear / clear_range / move_base_position /
    remove_attachments).
  * `alacritty/src/renderer/graphics/mod.rs`: `GraphicItem`,
    `ResizeTextureData`, `BlitGraphicData`, `GraphicsCommand`.
  * `alacritty/src/renderer/graphics/prepare.rs`: `attach_graphics`.

Modelling conventions:
  * `GraphicsLine` (an `isize` newtype) is `Int`; `Column` (a `usize`
    newtype) and pixel sizes are `Nat`.
  * Cell dimensions are `f32` in the source but always hold integral pixel
    sizes; they are modelled as `Nat`.  All the float arithmetic performed on
    them (`ceil` of a division, `mul_add`, casts) is exact for the integral
    values involved and is modelled with exact `Nat`/`Int` arithmetic; a
    negative-to-`usize` float cast saturates to 0, modelled with `Int.toNat`.
  * The `BTreeMap<GraphicsLine, G>` is a key-sorted association list
    (`List (Int × GraphicItem)`); `insert` replaces an existing key, as the
    source map does.
  * The injected texture-name generator (a closure in the source, supplied by
    `prepare()`; a plain counter in the source's tests) is modelled as a
    counter threaded through the state.
  * The `debug_assert!(_previous_item.is_none())` inside `Graphics::attach`
    is mirrored by the boolean field `debug_attach_ok`, which latches to
    `false` if an insertion ever finds its line occupied.
-/

namespace AlacrittyGraphics

/-- Pixel rows in a single graphic item (`ROWS_PER_GRAPHIC`). -/
def ROWS_PER_GRAPHIC : Nat := 1000

/-- Max allowed width for a graphic, in pixels (`MAX_GRAPHIC_DIMENSIONS.0`). -/
def MAX_GRAPHIC_WIDTH : Nat := 4096

/-- Max allowed height for a graphic, in pixels (`MAX_GRAPHIC_DIMENSIONS.1`). -/
def MAX_GRAPHIC_HEIGHT : Nat := 4096

/-- Format of the pixel data (`ColorType`). -/
inductive ColorType where
  | RGB
  | RGBA
deriving DecidableEq

/-- Number of bytes to define a single pixel (`ColorType::bytes_per_pixel`). -/
def ColorType.bytes_per_pixel : ColorType → Nat
  | .RGB => 3
  | .RGBA => 4

/-- Unit to specify a dimension to resize the graphic (`ResizeParameter`). -/
inductive ResizeParameter where
  | Auto
  | Cells (n : Nat)
  | Pixels (n : Nat)
  | WindowPercent (n : Nat)
deriving DecidableEq

/-- Dimensions to resize a graphic (`ResizeCommand`). -/
structure ResizeCommand where
  width : ResizeParameter
  height : ResizeParameter
  preserve_aspect_ratio : Bool
deriving DecidableEq

/-- A single graphic read from the PTY (`GraphicData`).  The pixel buffer is a
list of bytes. -/
structure GraphicData where
  column : Nat
  line : Int
  width : Nat
  height : Nat
  color_type : ColorType
  pixels : List Nat
  resize : Option ResizeCommand
deriving DecidableEq

/-- A graphic item attached to the grid (`GraphicItem` in the renderer).
`texture` is the backend resource handle (`TextureName`). -/
structure GraphicItem where
  texture : Nat
  column : Nat
  bottom : Int
  cell_height : Nat
  width : Nat
  height : Nat
deriving DecidableEq

/-- Cell geometry taken from `SizeInfo` (only the fields `attach_graphics`
reads). -/
structure SizeInfo where
  cell_width : Nat
  cell_height : Nat
deriving DecidableEq

/-- Data for the `ResizeTexture` command (`ResizeTextureData`). -/
structure ResizeTextureData where
  target_texture : Nat
  source : GraphicItem
  source_offset : Nat
  width : Nat
  height : Nat
deriving DecidableEq

/-- Data for the `BlitGraphic` command (`BlitGraphicData`). -/
structure BlitGraphicData where
  texture : Nat
  offset_x : Nat
  offset_y : Nat
  width : Nat
  height : Nat
  color_type : ColorType
  pixels : List Nat
deriving DecidableEq

/-- Commands generated during the *prepare* phase (`GraphicsCommand`).  The
payload of `Render` is elided: no verified claim concerns it. -/
inductive GraphicsCommand where
  | DeleteTextures (textures : List Nat)
  | InitTexture (texture : Nat) (data : GraphicData)
  | ResizeTexture (data : ResizeTextureData)
  | BlitGraphic (data : BlitGraphicData)
  | Render
deriving DecidableEq

/-! ### The sorted association list standing for `BTreeMap<GraphicsLine, G>` -/

/-- Lookup in the attachment map (`BTreeMap::get` / indexing). -/
def alookup (k : Int) : List (Int × GraphicItem) → Option GraphicItem
  | [] => none
  | e :: rest => if e.1 = k then some e.2 else alookup k rest

/-- Insertion in the attachment map (`BTreeMap::insert`): keeps the list
key-sorted and replaces the value if the key is present. -/
def ainsert (k : Int) (v : GraphicItem) :
    List (Int × GraphicItem) → List (Int × GraphicItem)
  | [] => [(k, v)]
  | e :: rest =>
    if k < e.1 then (k, v) :: e :: rest
    else if k = e.1 then (k, v) :: rest
    else e :: ainsert k v rest

/-- Removal from the attachment map (`BTreeMap::remove`). -/
def aremove (k : Int) : List (Int × GraphicItem) → List (Int × GraphicItem)
  | [] => []
  | e :: rest => if e.1 = k then rest else e :: aremove k rest

/-! ### The graphics store (`Graphics<G>` with `G = GraphicItem`) -/

/-- Bound of a key range over the attachment map, mirroring the
`RangeBounds` shapes the source passes to `remove_attachments`. -/
inductive GBound where
  | unbounded
  | incl (b : Int)
  | excl (b : Int)
deriving DecidableEq

/-- Does `k` satisfy a lower bound. -/
def GBound.memLower : GBound → Int → Bool
  | .unbounded, _ => true
  | .incl b, k => decide (b ≤ k)
  | .excl b, k => decide (b < k)

/-- Does `k` satisfy an upper bound. -/
def GBound.memUpper : GBound → Int → Bool
  | .unbounded, _ => true
  | .incl b, k => decide (k ≤ b)
  | .excl b, k => decide (k < b)

/-- Membership of a key in a `(lower, upper)` bound pair. -/
def inGRange (lo hi : GBound) (k : Int) : Bool :=
  lo.memLower k && hi.memUpper k

/-- Shift a bound by an offset (the source maps `Line` bounds to
`GraphicsLine` bounds by adding `base_position`). -/
def GBound.shift : GBound → Int → GBound
  | .unbounded, _ => .unbounded
  | .incl b, d => .incl (b + d)
  | .excl b, d => .excl (b + d)

/-- Storage for graphics attached to a grid (`Graphics<GraphicItem>`). -/
structure Graphics where
  base_position : Int
  attachments : List (Int × GraphicItem)
  pending : List GraphicData
  removed : List GraphicItem
  sixel_shared_palette : Option (List (Nat × Nat × Nat))
  /-- Mirrors the `debug_assert!` inside `Graphics::attach`: stays `true`
  while every insertion targets a line with no previous attachment. -/
  debug_attach_ok : Bool
deriving DecidableEq

/-- The `Default` instance for `Graphics<G>`. -/
def Graphics.default : Graphics :=
  { base_position := 0, attachments := [], pending := [], removed := [],
    sixel_shared_palette := none, debug_attach_ok := true }

/-- Attach a graphics item to a specific line (`Graphics::attach`).  The
line should not have any previous attachment; `debug_attach_ok` records
whether that held. -/
def Graphics.attach (g : Graphics) (top : Int) (item : GraphicItem) : Graphics :=
  { g with
    attachments := ainsert top item g.attachments,
    debug_attach_ok := g.debug_attach_ok && (alookup top g.attachments).isNone }

/-- Remove all graphics (`Graphics::clear`): attached items are moved to
`removed` in map order, pending items are discarded, the palette is dropped
and the anchor reset. -/
def Graphics.clear (g : Graphics) : Graphics :=
  { g with
    attachments := [],
    removed := g.removed ++ g.attachments.map Prod.snd,
    pending := [],
    sixel_shared_palette := none,
    base_position := 0 }

/-- Move attachments whose key lies in the range to the `removed` queue
(`Graphics::remove_attachments`). -/
def Graphics.remove_attachments (g : Graphics) (lo hi : GBound) : Graphics :=
  { g with
    attachments := g.attachments.filter (fun e => !inGRange lo hi e.1),
    removed := g.removed ++
      (g.attachments.filter (fun e => inGRange lo hi e.1)).map Prod.snd }

/-- Remove attachments in the given `Line` range (`Graphics::clear_range`):
the bounds are shifted by `base_position` before the removal. -/
def Graphics.clear_range (g : Graphics) (lo hi : GBound) : Graphics :=
  if g.attachments.isEmpty then g
  else g.remove_attachments (lo.shift g.base_position) (hi.shift g.base_position)

/-- Update `base_position` and evict graphics that fell out of the scrolling
history (`Graphics::move_base_position`). -/
def Graphics.move_base_position (g : Graphics) (positions : Int)
    (history_size : Nat) : Graphics :=
  let g' : Graphics := { g with base_position := g.base_position + positions }
  if 0 < history_size ∧ g'.attachments ≠ [] then
    g'.remove_attachments .unbounded (.excl (g'.base_position - history_size))
  else g'

/-! ### Resize preprocessing (`GraphicData::resized`) -/

/-- Ceiling division on `Nat`, the value of
`f32::ceil(a as f32 / b as f32)` for the integral sizes involved. -/
def ceilDivNat (a b : Nat) : Nat := (a + b - 1) / b

/-- Rounding of the rational `num / den` to the nearest natural, halves away
from zero — the behaviour of `f64::round` on the nonnegative values
involved. -/
def roundHalfUp (num den : Nat) : Nat := (2 * num + den) / (2 * den)

/-- Modelled from the spec: the dimensions produced by the external image
library (not part of this repository) when `preserve_aspect_ratio` is true —
the image "fits within the requested box preserving ratio", i.e. it is
scaled by the smaller of the two box ratios, each result dimension rounded
and forced to be at least 1. -/
def fit_resize_dims (w h boxW boxH : Nat) : Nat × Nat :=
  if boxW * h ≤ boxH * w then
    (max boxW 1, max (roundHalfUp (h * boxW) w) 1)
  else
    (max (roundHalfUp (w * boxH) h) 1, max boxH 1)

/-- Compute one axis dimension from its resize parameter: the `match` inside
`GraphicData::resized` (with `Auto` left as the placeholder 1). -/
def resizeAxis (p : ResizeParameter) (cell_dim view_dim : Nat) : Nat :=
  match p with
  | .Auto => 1
  | .Pixels n => n
  | .Cells n => n * cell_dim
  | .WindowPercent n => n * view_dim / 100

/-- Resize the graphic according to the dimensions in the `resize` field
(`GraphicData::resized`).  The reconstruction through the external image
library is modelled from the spec: `from_raw` fails when the pixel buffer is
smaller than the source dimensions demand; `preserve_aspect_ratio = false`
"stretches to the exact requested dimensions", `true` fits within the box
(`fit_resize_dims`); the resampled pixel content itself is abstracted as
zero bytes (no claim concerns it). -/
def GraphicData.resized (g : GraphicData)
    (cell_width cell_height view_width view_height : Nat) :
    Option GraphicData :=
  match g.resize with
  | none => some g
  | some resize =>
    if (resize.width = ResizeParameter.Auto ∧ resize.height = ResizeParameter.Auto)
        ∨ g.height = 0 ∨ g.width = 0 then
      some g
    else
      let width := resizeAxis resize.width cell_width view_width
      let height := resizeAxis resize.height cell_height view_height
      if width = 0 ∨ height = 0 then none
      else
        let width := if resize.width = ResizeParameter.Auto then
          g.width * height / g.height else width
        let height := if resize.height = ResizeParameter.Auto then
          g.height * width / g.width else height
        let width := min width MAX_GRAPHIC_WIDTH
        let height := min height MAX_GRAPHIC_HEIGHT
        if g.pixels.length < g.width * g.height * g.color_type.bytes_per_pixel then
          none
        else
          let dims := if resize.preserve_aspect_ratio then
            fit_resize_dims g.width g.height width height
          else (width, height)
          some { column := g.column, line := g.line,
                 width := dims.1, height := dims.2,
                 color_type := g.color_type,
                 pixels := List.replicate
                   (dims.1 * dims.2 * g.color_type.bytes_per_pixel) 0,
                 resize := none }

/-! ### The attachment engine (`attach_graphics` in `prepare.rs`) -/

/-- State threaded through `attach_graphics`: the store, the command batch,
the (mutable) new graphic being consumed, and the texture-name counter
standing for the injected `texture_generator` closure. -/
structure AttachState where
  graphics : Graphics
  commands : List GraphicsCommand
  g : GraphicData
  tex_next : Nat
deriving DecidableEq

/-- Last line to contain the new graphic
(`new_graphic.line + ceil(height / cell_height) - 1`). -/
def graphicBottom (si : SizeInfo) (g : GraphicData) : Int :=
  g.line + ceilDivNat g.height si.cell_height - 1

/-- Keys of the existing graphics that overlap with the new graphic: the
`range(line - ROWS_PER_GRAPHIC ..= bottom)` query followed by the filter
`key ≤ bottom && line ≤ surface.bottom`, in ascending key order. -/
def surfaceLines (g : Graphics) (ng : GraphicData) (bottom : Int) : List Int :=
  (g.attachments.filter (fun e =>
    decide (ng.line - (ROWS_PER_GRAPHIC : Int) ≤ e.1) && decide (e.1 ≤ bottom)
      && decide (ng.line ≤ e.2.bottom))).map Prod.fst

/-- First half of the loop body of `attach_graphics`: split the upper region
of the new graphic if there is something above the existing texture.  When
`surface_line` is strictly below the top of the new graphic, the rows above
it become a fresh region with a fresh texture and an `InitTexture` command,
and the remaining graphic is advanced past them. -/
def upperSplit (si : SizeInfo) (st : AttachState) (surface_line : Int) :
    AttachState :=
  let upper_lines := surface_line - st.g.line
  if 0 < upper_lines then
    let height := upper_lines.toNat * si.cell_height
    let split := height * st.g.width * st.g.color_type.bytes_per_pixel
    let top := st.g.line
    let upper_data : GraphicData :=
      { column := st.g.column, line := top, width := st.g.width,
        height := height, color_type := st.g.color_type,
        pixels := st.g.pixels.take split, resize := none }
    let texture := st.tex_next
    let upper_item : GraphicItem :=
      { texture := texture, column := upper_data.column,
        bottom := top + upper_lines - 1, cell_height := si.cell_height,
        width := upper_data.width, height := upper_data.height }
    { graphics := st.graphics.attach top upper_item,
      commands := st.commands ++ [GraphicsCommand.InitTexture texture upper_data],
      g := { st.g with
             pixels := st.g.pixels.drop split,
             height := st.g.height - height,
             line := st.g.line + upper_lines },
      tex_next := texture + 1 }
  else st

/-- The resize predicate of `attach_graphics`: the surface is replaced when
its left column is greater than the graphic's, its right side is less than
the graphic's right side, or its height is not a multiple of the current
cell height. -/
def needResize (si : SizeInfo) (surface : GraphicItem) (g : GraphicData) : Prop :=
  g.column < surface.column
    ∨ si.cell_width * surface.column + surface.width
        < si.cell_width * g.column + g.width
    ∨ surface.height % si.cell_height ≠ 0

instance (si : SizeInfo) (surface : GraphicItem) (g : GraphicData) :
    Decidable (needResize si surface g) := by
  unfold needResize; infer_instance

/-- Second half of the loop body of `attach_graphics`: copy the overlapping
region to the existing texture, resizing it first when the new graphic is
not within its bounds or the cell height changed. -/
def blitStep (si : SizeInfo) (st : AttachState) (surface_line : Int) :
    AttachState :=
  match alookup surface_line st.graphics.attachments with
  | none => st
  | some surface =>
    let cw := si.cell_width
    let surface_right := cw * surface.column + surface.width
    let new_graphic_right := cw * st.g.column + st.g.width
    let surface_bottom := surface.bottom
    let res :=
      if needResize si surface st.g then
        let graphics₁ : Graphics :=
          { st.graphics with
            attachments := aremove surface_line st.graphics.attachments }
        let blit_tex := st.tex_next
        let resize_column := min surface.column st.g.column
        let resize_right := max surface_right new_graphic_right
        let source_offset := (surface.column - resize_column) * cw
        let blit_offset_x := (st.g.column - resize_column) * cw
        let resize_width := resize_right - cw * resize_column
        let surface_height :=
          ((surface_bottom + 1 - surface_line) * (si.cell_height : Int)).toNat
        let new_surface : GraphicItem :=
          { texture := blit_tex, column := resize_column,
            bottom := surface.bottom, cell_height := si.cell_height,
            width := resize_width, height := surface_height }
        (graphics₁.attach surface_line new_surface,
         st.commands ++ [GraphicsCommand.ResizeTexture
           { target_texture := blit_tex, source := surface,
             source_offset := source_offset, width := resize_width,
             height := surface_height }],
         blit_tex, blit_offset_x, surface_height, st.tex_next + 1)
      else
        (st.graphics, st.commands, surface.texture,
         (st.g.column - surface.column) * cw, surface.height, st.tex_next)
    match res with
    | (graphics', commands', blit_tex, blit_offset_x, surface_height, tex') =>
      let blit_offset_y :=
        ((st.g.line - surface_line) * (si.cell_height : Int)).toNat
      let blit_height := surface_height - blit_offset_y
      if st.g.height ≤ blit_height then
        { graphics := graphics',
          commands := commands' ++ [GraphicsCommand.BlitGraphic
            { texture := blit_tex, offset_x := blit_offset_x,
              offset_y := blit_offset_y, width := st.g.width,
              height := st.g.height, color_type := st.g.color_type,
              pixels := st.g.pixels }],
          g := { st.g with height := 0, pixels := [] },
          tex_next := tex' }
      else
        let split := blit_height * st.g.width * st.g.color_type.bytes_per_pixel
        { graphics := graphics',
          commands := commands' ++ [GraphicsCommand.BlitGraphic
            { texture := blit_tex, offset_x := blit_offset_x,
              offset_y := blit_offset_y, width := st.g.width,
              height := blit_height, color_type := st.g.color_type,
              pixels := st.g.pixels.take split }],
          g := { st.g with
                 height := st.g.height - blit_height,
                 line := surface_bottom + 1,
                 pixels := st.g.pixels.drop split },
          tex_next := tex' }

/-- One full iteration of the loop of `attach_graphics` for one existing
surface. -/
def attachSurface (si : SizeInfo) (st : AttachState) (surface_line : Int) :
    AttachState :=
  blitStep si (upperSplit si st surface_line) surface_line

/-- The loop of `attach_graphics` over the collected surface lines, with the
early return taken when the new graphic is fully consumed. -/
def attachLoop (si : SizeInfo) : List Int → AttachState → AttachState
  | [], st => st
  | l :: rest, st =>
    let st' := attachSurface si st l
    if st'.g.height = 0 then st' else attachLoop si rest st'

/-- Attach a new graphic to a grid (`attach_graphics`). -/
def attach_graphics (si : SizeInfo) (graphics : Graphics)
    (commands : List GraphicsCommand) (new_graphic : GraphicData)
    (tex_next : Nat) : AttachState :=
  let bottom := graphicBottom si new_graphic
  let lines := surfaceLines graphics new_graphic bottom
  let st := attachLoop si lines
    { graphics := graphics, commands := commands, g := new_graphic,
      tex_next := tex_next }
  if 0 < st.g.height then
    let texture := st.tex_next
    let item : GraphicItem :=
      { texture := texture, column := st.g.column, bottom := bottom,
        cell_height := si.cell_height, width := st.g.width,
        height := st.g.height }
    { graphics := st.graphics.attach st.g.line item,
      commands := st.commands ++ [GraphicsCommand.InitTexture texture st.g],
      g := st.g, tex_next := texture + 1 }
  else st

/-! ### Operation sequences over the store -/

/-- An operation over the store, as in the sequences of the invariant
claims: attaching a pending image, clearing, clearing a range, or moving
the base position. -/
inductive GOp where
  | attach (g : GraphicData)
  | clear
  | clear_range (lo hi : GBound)
  | move_base (delta : Int) (history : Nat)
deriving DecidableEq

/-- Apply one operation to a `(store, texture counter)` pair. -/
def applyOp (si : SizeInfo) (s : Graphics × Nat) : GOp → Graphics × Nat
  | .attach g =>
    let st := attach_graphics si s.1 [] g s.2
    (st.graphics, st.tex_next)
  | .clear => (s.1.clear, s.2)
  | .clear_range lo hi => (s.1.clear_range lo hi, s.2)
  | .move_base d h => (s.1.move_base_position d h, s.2)

/-- Run a sequence of operations from the empty store. -/
def runOps (si : SizeInfo) (ops : List GOp) : Graphics × Nat :=
  ops.foldl (applyOp si) (Graphics.default, 0)

/-- Attach a sequence of pending graphics in order, accumulating commands
and the texture counter — the loop over `pending` in
`GraphicsRenderer::prepare`. -/
def attachSeq (si : SizeInfo) :
    List GraphicData → Graphics → List GraphicsCommand → Nat →
    Graphics × List GraphicsCommand × Nat
  | [], store, cmds, tex => (store, cmds, tex)
  | g :: rest, store, cmds, tex =>
    let r := attach_graphics si store cmds g tex
    attachSeq si rest r.graphics r.commands r.tex_next

/-- One `InitTexture` command per graphic, with consecutive texture
names starting at `tex`. -/
def initCmds : List GraphicData → Nat → List GraphicsCommand
  | [], _ => []
  | g :: rest, tex => GraphicsCommand.InitTexture tex g :: initCmds rest (tex + 1)

/-- The item built by the final no-overlap insertion of `attach_graphics`
(a fresh texture sized exactly to the remainder). -/
def freshItem (si : SizeInfo) (g : GraphicData) (tex : Nat) : GraphicItem :=
  { texture := tex, column := g.column, bottom := graphicBottom si g,
    cell_height := si.cell_height, width := g.width, height := g.height }

/-! ### Interval invariants over the attachment index -/

/-- Entry `a` lies entirely above entry `b`: `a`'s bottom row is strictly
above `b`'s top row. -/
def Below (a b : Int × GraphicItem) : Prop := a.2.bottom < b.1

instance : DecidableRel Below := fun a b => by unfold Below; infer_instance

/-- The row intervals `[top, bottom]` of two entries are disjoint. -/
def regionsDisjoint (a b : Int × GraphicItem) : Prop :=
  a.2.bottom < b.1 ∨ b.2.bottom < a.1

instance : DecidableRel regionsDisjoint := fun a b => by
  unfold regionsDisjoint; infer_instance

/-- Well-formedness of one entry of the attachment index for cell height
`ch`: the region spans at least one row and at most `ROWS_PER_GRAPHIC`
rows, and its pixel height matches its row span (strictly more than the
full rows above the last, at most the full span). -/
def EntryWF (ch : Nat) (e : Int × GraphicItem) : Prop :=
  e.1 ≤ e.2.bottom ∧
  e.2.bottom - e.1 + 1 ≤ (ROWS_PER_GRAPHIC : Int) ∧
  (e.2.bottom - e.1) * ch < (e.2.height : Int) ∧
  (e.2.height : Int) ≤ (e.2.bottom - e.1 + 1) * ch

instance (ch : Nat) : DecidablePred (EntryWF ch) := fun e => by
  unfold EntryWF; infer_instance

/-- Invariant of the attachment index: every entry is well formed and the
entries are listed in ascending order of pairwise-disjoint row intervals. -/
def StoreInv (ch : Nat) (l : List (Int × GraphicItem)) : Prop :=
  (∀ e ∈ l, EntryWF ch e) ∧ l.Pairwise Below

instance (ch : Nat) (l : List (Int × GraphicItem)) :
    Decidable (StoreInv ch l) := by
  unfold StoreInv; infer_instance

/-- Invariant carried through the loop of `attach_graphics`: `line0` and
`bottom0` are the row range of the original pending image, `rem` the
suffix of surface lines still to be processed.  It ties the store
invariant, the assertion flag, the remaining image's height/row
relationship, and the classification of every attached region (still to be
processed, entirely above the remaining image, or entirely below the
image's original bottom row). -/
def LoopInv (si : SizeInfo) (line0 bottom0 : Int) (st : AttachState)
    (rem : List Int) : Prop :=
  StoreInv si.cell_height st.graphics.attachments ∧
  st.graphics.debug_attach_ok = true ∧
  line0 ≤ st.g.line ∧
  (st.g.height = 0 → bottom0 < st.g.line) ∧
  (0 < st.g.height →
    (bottom0 - st.g.line) * (si.cell_height : Int) < (st.g.height : Int) ∧
    (st.g.height : Int) ≤ (bottom0 - st.g.line + 1) * (si.cell_height : Int)) ∧
  (∀ e ∈ st.graphics.attachments,
    e.1 ∈ rem ∨ e.2.bottom < st.g.line ∨ bottom0 < e.1) ∧
  rem.Pairwise (fun a b => a < b) ∧
  (∀ l ∈ rem, l ≤ bottom0 ∧
    ∃ r, (l, r) ∈ st.graphics.attachments ∧ line0 ≤ r.bottom ∧
      (st.g.line ≤ l ∨ st.g.line ≤ r.bottom))

/-- Per-operation row-span side condition of the amended C1: an attached
image spans at most `ROWS_PER_GRAPHIC` grid rows. -/
def opRowsOk (si : SizeInfo) : GOp → Prop
  | .attach g => ceilDivNat g.height si.cell_height ≤ ROWS_PER_GRAPHIC
  | _ => True

instance (si : SizeInfo) (op : GOp) : Decidable (opRowsOk si op) := by
  unfold opRowsOk
  cases op <;> infer_instance

/-! ### Concrete instances used by witnesses and counterexamples -/

/-- A store with a single attached region spanning row 0 only. -/
def c3store : Graphics :=
  { Graphics.default with
    attachments := [(0, { texture := 1, column := 0, bottom := 0,
                          cell_height := 4, width := 2, height := 4 })] }

/-- A 2×2 source graphic asking for `Cells(2)` width and `Pixels(2)` height
with `preserve_aspect_ratio = true`. -/
def c4src : GraphicData :=
  { column := 0, line := 0, width := 2, height := 2, color_type := .RGB,
    pixels := List.replicate 12 0,
    resize := some { width := .Cells 2, height := .Pixels 2,
                     preserve_aspect_ratio := true } }

/-- A 2×2 source graphic asking for `Cells(2)` width and `Pixels(2)` height
with `preserve_aspect_ratio = false`. -/
def c4srcExact : GraphicData :=
  { c4src with
    resize := some { width := .Cells 2, height := .Pixels 2,
                     preserve_aspect_ratio := false } }

/-- A 1×2 source graphic asking for `Auto` width and `Pixels(1)` height. -/
def c9src : GraphicData :=
  { column := 0, line := 0, width := 1, height := 2, color_type := .RGB,
    pixels := List.replicate 6 0,
    resize := some { width := .Auto, height := .Pixels 1,
                     preserve_aspect_ratio := false } }

/-- A zero-width image with positive height. -/
def c8img : GraphicData :=
  { column := 0, line := 0, width := 0, height := 4, color_type := .RGB,
    pixels := [], resize := none }

/-- A zero-height image. -/
def c8img0 : GraphicData :=
  { column := 0, line := 0, width := 5, height := 0, color_type := .RGB,
    pixels := [], resize := none }

/-- A concrete state whose image top is one row above line 1. -/
def c7st : AttachState :=
  { graphics := Graphics.default, commands := [],
    g := { column := 0, line := 0, width := 1, height := 8,
           color_type := .RGB, pixels := List.replicate 24 0, resize := none },
    tex_next := 5 }


/-- An existing surface used by the C6 witness. -/
def c6surface : GraphicItem :=
  { texture := 9, column := 0, bottom := 0, cell_height := 4, width := 4,
    height := 4 }

/-- A state whose image exactly covers `c6surface`. -/
def c6st : AttachState :=
  { graphics := { Graphics.default with attachments := [(0, c6surface)] },
    commands := [],
    g := { column := 0, line := 0, width := 4, height := 4,
           color_type := .RGB, pixels := List.replicate 48 0, resize := none },
    tex_next := 3 }

/-- An image whose height (3px) is not a multiple of the cell height. -/
def c5img : GraphicData :=
  { column := 0, line := 0, width := 1, height := 3, color_type := .RGB,
    pixels := List.replicate 9 0, resize := none }

/-- The store obtained by attaching `c5img` to the empty store. -/
def c5store : Graphics :=
  (attach_graphics ⟨2, 4⟩ Graphics.default [] c5img 0).graphics

/-- A region of one cell row with cell-aligned height. -/
def c5item : GraphicItem :=
  { texture := 0, column := 0, bottom := 0, cell_height := 4, width := 1,
    height := 4 }

/-- A store holding just `c5item` at line 0. -/
def c5wstore : Graphics :=
  { Graphics.default with attachments := [(0, c5item)] }

/-- An image identical in position and size to `c5item`. -/
def c5w : GraphicData :=
  { column := 0, line := 0, width := 1, height := 4, color_type := .RGB,
    pixels := List.replicate 12 0, resize := none }

/-- A zero-height image used by the C2 counterexample. -/
def c2img0 : GraphicData :=
  { column := 0, line := 0, width := 2, height := 0, color_type := .RGB,
    pixels := [], resize := none }

/-- A 1×4px image at line 0 used by the C2 witness. -/
def c2imgA : GraphicData :=
  { column := 0, line := 0, width := 1, height := 4, color_type := .RGB,
    pixels := List.replicate 12 0, resize := none }

/-- A 1×4px image at line 5 used by the C2 witness. -/
def c2imgB : GraphicData :=
  { column := 3, line := 5, width := 1, height := 4, color_type := .RGB,
    pixels := List.replicate 12 0, resize := none }

/-- A store whose two regions have pairwise-disjoint row intervals
([0,5] and [6,6]) but whose first region's pixel height (12px) is far less
than its 6-row span demands at cell height 4. -/
def c10store : Graphics :=
  { Graphics.default with
    attachments := [(0, { texture := 1, column := 0, bottom := 5,
                          cell_height := 4, width := 100, height := 12 }),
                    (6, { texture := 2, column := 0, bottom := 6,
                          cell_height := 4, width := 2, height := 4 })] }

/-- A 2×16px image at line 0, spanning rows 0..3 at cell height 4. -/
def c10img : GraphicData :=
  { column := 0, line := 0, width := 2, height := 16, color_type := .RGB,
    pixels := List.replicate 96 0, resize := none }

/-- A zero-width image of height 1500px, spanning 1500 rows at cell
height 1 — more than `ROWS_PER_GRAPHIC`. -/
def c1imgA : GraphicData :=
  { column := 0, line := 0, width := 0, height := 1500, color_type := .RGB,
    pixels := [], resize := none }

/-- A zero-width one-row image at line 1200, inside `c1imgA`'s row span. -/
def c1imgB : GraphicData :=
  { column := 0, line := 1200, width := 0, height := 1, color_type := .RGB,
    pixels := [], resize := none }

/-! ### Lemmas about `ceilDivNat` and the association list -/

/-- Specification of the ceiling division. -/
theorem ceilDivNat_spec (h ch : Nat) (hch : 0 < ch) :
    h ≤ ceilDivNat h ch * ch ∧ ceilDivNat h ch * ch < h + ch := by
  unfold ceilDivNat
  rw [Nat.mul_comm]
  have key := Nat.div_add_mod (h + ch - 1) ch
  have hlt : (h + ch - 1) % ch < ch := Nat.mod_lt _ hch
  omega

/-- The ceiling division is positive on positive input. -/
theorem ceilDivNat_pos (h ch : Nat) (hch : 0 < ch) (hh : 0 < h) :
    0 < ceilDivNat h ch :=
  Nat.div_pos (by omega) hch

/-- Monotone bound for the ceiling division. -/
theorem ceilDivNat_le_of_le (h ch D : Nat) (hch : 0 < ch) (hle : h ≤ D * ch) :
    ceilDivNat h ch ≤ D := by
  refine Nat.lt_succ_iff.mp ((Nat.div_lt_iff_lt_mul hch).mpr ?_)
  have hexp2 : D.succ * ch = D * ch + ch := Nat.succ_mul D ch
  have hexp1 : (D + 1) * ch = D * ch + ch := by ring
  omega

/-- A key bounded lookup: a present binding is found when keys are the tops
of pairwise-disjoint well-formed intervals. -/
theorem alookup_eq_some_of_mem :
    ∀ {l : List (Int × GraphicItem)} {k : Int} {v : GraphicItem},
    l.Pairwise Below → (∀ e ∈ l, e.1 ≤ e.2.bottom) → (k, v) ∈ l →
    alookup k l = some v := by
  intro l
  induction l with
  | nil => intro k v _ _ hmem; cases hmem
  | cons e rest ih =>
    intro k v hp hwf hmem
    rw [alookup]
    rcases List.mem_cons.mp hmem with heq | hmem'
    · subst heq
      rw [if_pos rfl]
    · by_cases hk : e.1 = k
      · exfalso
        have hb : Below e (k, v) := (List.pairwise_cons.mp hp).1 _ hmem'
        have hb2 : e.2.bottom < k := hb
        have := hwf e (List.mem_cons_self e rest)
        omega
      · rw [if_neg hk]
        exact ih (List.pairwise_cons.mp hp).2
          (fun x hx => hwf x (List.mem_cons_of_mem e hx)) hmem'

/-- Lookup fails exactly when the key is absent. -/
theorem alookup_eq_none_iff :
    ∀ {l : List (Int × GraphicItem)} {k : Int},
    alookup k l = none ↔ ∀ e ∈ l, e.1 ≠ k := by
  intro l
  induction l with
  | nil => simp [alookup]
  | cons e rest ih =>
    intro k
    rw [alookup]
    by_cases hk : e.1 = k
    · simp [hk]
    · simp [hk, ih]

/-- If an interval is disjoint from all those in the list, its key is a
fresh key. -/
theorem keys_ne_of_disjoint {l : List (Int × GraphicItem)} {k : Int}
    {v : GraphicItem}
    (hwf : ∀ e ∈ l, e.1 ≤ e.2.bottom) (hkv : k ≤ v.bottom)
    (hd : ∀ e ∈ l, v.bottom < e.1 ∨ e.2.bottom < k) :
    ∀ e ∈ l, e.1 ≠ k := by
  intro e he heq
  rcases hd e he with hcase | hcase
  · omega
  · have := hwf e he
    omega

/-- Membership in an insertion at a fresh key. -/
theorem mem_ainsert {l : List (Int × GraphicItem)} {k : Int} {v : GraphicItem}
    (hk : ∀ e ∈ l, e.1 ≠ k) :
    ∀ x, x ∈ ainsert k v l ↔ x = (k, v) ∨ x ∈ l := by
  induction l with
  | nil => intro x; simp [ainsert]
  | cons e rest ih =>
    intro x
    rw [ainsert]
    by_cases h1 : k < e.1
    · simp [if_pos h1, List.mem_cons, or_left_comm, or_comm]
    · rw [if_neg h1, if_neg (fun heq => hk e (List.mem_cons_self e rest) heq.symm)]
      have := ih (fun x hx => hk x (List.mem_cons_of_mem e hx))
      simp only [List.mem_cons, this]
      tauto

/-- Inserting an interval disjoint from all those present preserves the
ascending disjoint order. -/
theorem ainsert_pairwise :
    ∀ {l : List (Int × GraphicItem)} {k : Int} {v : GraphicItem},
    l.Pairwise Below → (∀ e ∈ l, e.1 ≤ e.2.bottom) → k ≤ v.bottom →
    (∀ e ∈ l, v.bottom < e.1 ∨ e.2.bottom < k) →
    (ainsert k v l).Pairwise Below := by
  intro l
  induction l with
  | nil =>
    intro k v _ _ _ _
    simp [ainsert, List.pairwise_singleton]
  | cons e rest ih =>
    intro k v hp hwf hkv hd
    have hwfe := hwf e (List.mem_cons_self e rest)
    have hde := hd e (List.mem_cons_self e rest)
    rw [ainsert]
    by_cases h1 : k < e.1
    · rw [if_pos h1]
      refine List.pairwise_cons.mpr ⟨?_, hp⟩
      intro x hx
      rcases List.mem_cons.mp hx with rfl | hx'
      · unfold Below
        rcases hde with hcase | hcase
        · exact hcase
        · omega
      · rcases hd x (List.mem_cons_of_mem e hx') with hcase | hcase
        · exact hcase
        · exfalso
          have hbx : Below e x := (List.pairwise_cons.mp hp).1 _ hx'
          have := hwf x (List.mem_cons_of_mem e hx')
          unfold Below at hbx
          omega
    · rw [if_neg h1,
        if_neg (fun heq => keys_ne_of_disjoint hwf hkv hd e
          (List.mem_cons_self e rest) heq.symm)]
      refine List.pairwise_cons.mpr ⟨?_, ?_⟩
      · intro x hx
        have hkne : ∀ e' ∈ rest, e'.1 ≠ k := fun e' he' =>
          keys_ne_of_disjoint hwf hkv hd e' (List.mem_cons_of_mem e he')
        rcases (mem_ainsert hkne x).mp hx with rfl | hx'
        · unfold Below
          rcases hde with hcase | hcase
          · omega
          · exact hcase
        · exact (List.pairwise_cons.mp hp).1 _ hx'
      · exact ih (List.pairwise_cons.mp hp).2
          (fun x hx => hwf x (List.mem_cons_of_mem e hx)) hkv
          (fun x hx => hd x (List.mem_cons_of_mem e hx))

/-- Removal produces a sublist. -/
theorem aremove_sublist (k : Int) :
    ∀ l : List (Int × GraphicItem), List.Sublist (aremove k l) l := by
  intro l
  induction l with
  | nil => simp [aremove]
  | cons e rest ih =>
    rw [aremove]
    by_cases h1 : e.1 = k
    · rw [if_pos h1]
      exact (List.sublist_cons_self e rest)
    · rw [if_neg h1]
      exact ih.cons₂ e

/-- Members surviving a removal. -/
theorem mem_aremove_of_ne {l : List (Int × GraphicItem)} {k : Int}
    {x : Int × GraphicItem} (hx : x ∈ l) (hne : x.1 ≠ k) :
    x ∈ aremove k l := by
  induction l with
  | nil => cases hx
  | cons e rest ih =>
    rw [aremove]
    by_cases h1 : e.1 = k
    · rw [if_pos h1]
      rcases List.mem_cons.mp hx with rfl | hx'
      · exact absurd h1 hne
      · exact hx'
    · rw [if_neg h1]
      rcases List.mem_cons.mp hx with rfl | hx'
      · exact List.mem_cons_self _ _
      · exact List.mem_cons_of_mem e (ih hx')

/-- After removing a key from a well-formed sorted index, the key is gone. -/
theorem alookup_aremove_self {l : List (Int × GraphicItem)} {k : Int}
    (hp : l.Pairwise Below) (hwf : ∀ e ∈ l, e.1 ≤ e.2.bottom) :
    ∀ e ∈ aremove k l, e.1 ≠ k := by
  induction l with
  | nil => intro e he; cases he
  | cons e rest ih =>
    rw [aremove]
    by_cases h1 : e.1 = k
    · rw [if_pos h1]
      intro x hx heq
      have hbx : Below e x := (List.pairwise_cons.mp hp).1 _ hx
      have h2 := hwf e (List.mem_cons_self e rest)
      unfold Below at hbx
      omega
    · rw [if_neg h1]
      intro x hx
      rcases List.mem_cons.mp hx with rfl | hx'
      · exact h1
      · exact ih (List.pairwise_cons.mp hp).2
          (fun y hy => hwf y (List.mem_cons_of_mem e hy)) x hx'

/-- Insertion at a fresh key grows the list by one. -/
theorem ainsert_length {l : List (Int × GraphicItem)} {k : Int}
    {v : GraphicItem} (hk : ∀ e ∈ l, e.1 ≠ k) :
    (ainsert k v l).length = l.length + 1 := by
  induction l with
  | nil => simp [ainsert]
  | cons e rest ih =>
    rw [ainsert]
    by_cases h1 : k < e.1
    · simp [if_pos h1]
    · rw [if_neg h1, if_neg (fun heq => hk e (List.mem_cons_self e rest) heq.symm)]
      simp [ih (fun x hx => hk x (List.mem_cons_of_mem e hx))]

/-- Any two distinct entries of a sorted disjoint index are comparable by
`Below`. -/
theorem pairwise_below_total {l : List (Int × GraphicItem)}
    (hp : l.Pairwise Below) {a b : Int × GraphicItem}
    (ha : a ∈ l) (hb : b ∈ l) (hne : a ≠ b) : Below a b ∨ Below b a := by
  have hp' : l.Pairwise (fun a b => Below a b ∨ Below b a) :=
    hp.imp (fun h => Or.inl h)
  have hsymm : Symmetric (fun a b : Int × GraphicItem => Below a b ∨ Below b a) :=
    fun x y h => Or.symm h
  exact List.Pairwise.forall hsymm hp' ha hb hne

/-- A sorted well-formed index has no duplicate entry. -/
theorem storeInv_nodup {l : List (Int × GraphicItem)}
    (hp : l.Pairwise Below) (hwf : ∀ e ∈ l, e.1 ≤ e.2.bottom) : l.Nodup := by
  refine (List.Pairwise.and_mem.mp hp).imp ?_
  rintro a b ⟨ha, hb, hab⟩ rfl
  have := hwf a ha
  unfold Below at hab
  omega

/-- A filter keeping exactly one element of a duplicate-free list. -/
theorem filter_eq_single {p : Int × GraphicItem → Bool} :
    ∀ {l : List (Int × GraphicItem)} {x : Int × GraphicItem},
    l.Nodup → x ∈ l → p x = true → (∀ e ∈ l, e ≠ x → p e = false) →
    l.filter p = [x] := by
  intro l
  induction l with
  | nil => intro x _ hx; cases hx
  | cons e rest ih =>
    intro x hnd hx hpx hothers
    rcases List.mem_cons.mp hx with rfl | hx'
    · rw [List.filter_cons_of_pos hpx]
      have hrest : rest.filter p = [] := by
        apply List.filter_eq_nil_iff.mpr
        intro a ha
        have hax : a ≠ x := by
          rintro rfl
          exact (List.nodup_cons.mp hnd).1 ha
        simp [hothers a (List.mem_cons_of_mem x ha) hax]
      rw [hrest]
    · have hex : e ≠ x := by
        rintro rfl
        exact (List.nodup_cons.mp hnd).1 hx'
      rw [List.filter_cons_of_neg (by simp [hothers e (List.mem_cons_self e rest) hex])]
      exact ih (List.nodup_cons.mp hnd).2 hx' hpx
        (fun a ha => hothers a (List.mem_cons_of_mem e ha))

/-! ## Claim C3: `move_base_position` -/

/-- C3 (amended): for every store whose regions satisfy `top ≤ bottom_row`
and every `retained_history > 0`, after `move_base_position delta history`
the anchor has been shifted by `delta`, no region with
`bottom_row < new_anchor - history` remains in the index, and every region
evicted by the call has been appended to the removed queue. -/
theorem c3_move_base_position (store : Graphics) (delta : Int) (history : Nat)
    (hh : 0 < history) (hwf : ∀ e ∈ store.attachments, e.1 ≤ e.2.bottom) :
    (store.move_base_position delta history).base_position
        = store.base_position + delta ∧
    (∀ e ∈ (store.move_base_position delta history).attachments,
      ¬ e.2.bottom < store.base_position + delta - (history : Int)) ∧
    (∀ e ∈ store.attachments,
      e ∈ (store.move_base_position delta history).attachments
        ∨ e.2 ∈ (store.move_base_position delta history).removed) := by
  unfold Graphics.move_base_position
  by_cases hne : store.attachments = []
  · simp [hne]
  · rw [if_pos ⟨hh, by simpa using hne⟩]
    unfold Graphics.remove_attachments
    refine ⟨rfl, ?_, ?_⟩
    · intro e he
      simp only [List.mem_filter, inGRange, GBound.memLower, GBound.memUpper,
        Bool.true_and, Bool.not_eq_eq_eq_not, Bool.not_true, decide_eq_false_iff_not,
        not_lt] at he
      have := hwf e he.1
      omega
    · intro e he
      by_cases hc : e.1 < store.base_position + delta - (history : Int)
      · right
        simp only [List.mem_append, List.mem_map]
        right
        exact ⟨e, by simp [List.mem_filter, he, inGRange, GBound.memLower,
          GBound.memUpper, hc], rfl⟩
      · left
        simp [List.mem_filter, he, inGRange, GBound.memLower, GBound.memUpper, hc]

/-- C3 counterexample: with `retained_history = 0` the code performs no
eviction at all, so after shifting the anchor by 5 a region with
`bottom_row = 0 < new_anchor - history = 5` remains in the index,
contradicting the claim as stated (which quantifies over every
`retained_history` size). -/
theorem c3_counterexample :
    (c3store.move_base_position 5 0).base_position = 5 ∧
    (c3store.move_base_position 5 0).attachments = c3store.attachments ∧
    ∃ e ∈ (c3store.move_base_position 5 0).attachments,
      e.2.bottom < (c3store.move_base_position 5 0).base_position - ((0 : Nat) : Int) := by
  refine ⟨by decide, by decide, ?_⟩
  exact ⟨(0, { texture := 1, column := 0, bottom := 0, cell_height := 4,
               width := 2, height := 4 }), by decide, by decide⟩

/-- C3 witness: the amended statement applied at a concrete store. -/
theorem c3_witness :
    (0 < 3 ∧ ∀ e ∈ c3store.attachments, e.1 ≤ e.2.bottom) ∧
    (c3store.move_base_position 5 3).base_position = c3store.base_position + 5 := by
  refine ⟨⟨by decide, by decide⟩, ?_⟩
  exact (c3_move_base_position c3store 5 3 (by decide) (by decide)).1

/-! ## Claim C4: `resized` with `Cells(n)` width -/

/-- C4 (amended): for every graphic with non-zero source width and height
whose resize spec has `width = Cells n`, a non-`Auto` height axis and
`preserve_aspect_ratio = false`, with `n * cell_width` not exceeding the
maximum pixel dimension, any graphic returned by `resized` has width exactly
`n * cell_width`.  (With `preserve_aspect_ratio = true` the external library
fits the image inside the box preserving the source aspect ratio, so the
width can come out smaller; see the counterexample.) -/
theorem c4_resized_cells_width (g : GraphicData) (rc : ResizeCommand) (n : Nat)
    (cw ch vw vh : Nat) (g' : GraphicData)
    (hr : g.resize = some rc)
    (hw0 : g.width ≠ 0) (hh0 : g.height ≠ 0)
    (hwidth : rc.width = ResizeParameter.Cells n)
    (hha : rc.height ≠ ResizeParameter.Auto)
    (hpar : rc.preserve_aspect_ratio = false)
    (hmax : n * cw ≤ MAX_GRAPHIC_WIDTH)
    (hres : g.resized cw ch vw vh = some g') :
    g'.width = n * cw := by
  simp only [GraphicData.resized, hr] at hres
  rw [if_neg (by simp [hwidth, hw0, hh0])] at hres
  simp only [hwidth, hpar, resizeAxis] at hres
  rw [if_neg hha] at hres
  split at hres
  · exact absurd hres (by simp)
  · split at hres
    · exact absurd hres (by simp)
    · simp only [Bool.false_eq_true, if_false] at hres
      have hw' : g'.width = min (n * cw) MAX_GRAPHIC_WIDTH := by
        cases hres; rfl
      rw [hw', Nat.min_eq_left hmax]

/-- C4 counterexample: with cell width 2 the request is `width = Cells 2`,
so the claim demands width `2 * 2 = 4` independently of
`preserve_aspect_ratio`; but with `preserve_aspect_ratio = true` the image
is fitted inside the 4×2 box preserving its 1:1 ratio and comes out 2×2,
with width 2 ≠ 4.  The paired height axis is `Pixels 2`, not `Auto`, and
`2 * 2 ≤ 4096`. -/
theorem c4_counterexample :
    c4src.resized 2 4 100 100 =
      some { column := 0, line := 0, width := 2, height := 2,
             color_type := .RGB, pixels := List.replicate 12 0,
             resize := none } ∧ (2 : Nat) ≠ 2 * 2 := by
  exact ⟨by decide, by decide⟩

/-- C4 witness: the amended statement applied at a concrete graphic. -/
theorem c4_witness :
    c4srcExact.resize = some { width := .Cells 2, height := .Pixels 2,
                               preserve_aspect_ratio := false } ∧
    (∃ g', c4srcExact.resized 2 4 100 100 = some g' ∧ g'.width = 2 * 2) := by
  refine ⟨by decide, ?_⟩
  have hres : c4srcExact.resized 2 4 100 100 =
      some { column := 0, line := 0, width := 4, height := 2,
             color_type := .RGB, pixels := List.replicate 24 0,
             resize := none } := by decide
  exact ⟨_, hres, c4_resized_cells_width c4srcExact
    { width := .Cells 2, height := .Pixels 2, preserve_aspect_ratio := false }
    2 2 4 100 100 _ (by decide) (by decide) (by decide) (by decide)
    (by decide) (by decide) (by decide) hres⟩

/-! ## Claim C9: `resized` error handling and bounds -/

/-- Bound on the aspect-preserving fit: each result dimension stays within
the (clamped) box, up to the forced minimum of 1 per axis. -/
theorem fit_resize_dims_le (w h boxW boxH B1 B2 : Nat) (hw : 0 < w) (hh : 0 < h)
    (h1 : boxW ≤ B1) (h2 : boxH ≤ B2) (hB1 : 1 ≤ B1) (hB2 : 1 ≤ B2) :
    (fit_resize_dims w h boxW boxH).1 ≤ B1 ∧
    (fit_resize_dims w h boxW boxH).2 ≤ B2 := by
  unfold fit_resize_dims roundHalfUp
  split
  case isTrue hc =>
    refine ⟨by simp; omega, ?_⟩
    have hlt : 2 * (h * boxW) + w < (boxH + 1) * (2 * w) := by nlinarith
    have hd : (2 * (h * boxW) + w) / (2 * w) < boxH + 1 :=
      (Nat.div_lt_iff_lt_mul (by omega : 0 < 2 * w)).mpr hlt
    simp only
    have := Nat.lt_succ_iff.mp hd
    simp
    omega
  case isFalse hc =>
    refine ⟨?_, by simp; omega⟩
    have hlt : 2 * (w * boxH) + h < (boxW + 1) * (2 * h) := by nlinarith
    have hd : (2 * (w * boxH) + h) / (2 * h) < boxW + 1 :=
      (Nat.div_lt_iff_lt_mul (by omega : 0 < 2 * h)).mpr hlt
    simp only
    have := Nat.lt_succ_iff.mp hd
    simp
    omega

/-- C9 (amended): for a graphic with non-zero source dimensions, a
well-formed pixel buffer and a resize spec that is not both-axes `Auto`: if
either axis dimension computed directly from its resize parameter is zero,
`resized` returns `none`; if both are non-zero, `resized` returns some
graphic whose dimensions do not exceed the fixed maximum pixel dimension
per axis.  (An axis derived through one-axis `Auto` can still come out zero
and is not caught by the zero check; see the counterexample.) -/
theorem c9_resized_zero_axis (g : GraphicData) (rc : ResizeCommand)
    (cw ch vw vh : Nat)
    (hr : g.resize = some rc)
    (hna : ¬(rc.width = ResizeParameter.Auto ∧ rc.height = ResizeParameter.Auto))
    (hw : g.width ≠ 0) (hh : g.height ≠ 0)
    (hpix : g.pixels.length = g.width * g.height * g.color_type.bytes_per_pixel) :
    (resizeAxis rc.width cw vw = 0 ∨ resizeAxis rc.height ch vh = 0 →
      g.resized cw ch vw vh = none) ∧
    (resizeAxis rc.width cw vw ≠ 0 → resizeAxis rc.height ch vh ≠ 0 →
      ∃ g', g.resized cw ch vw vh = some g' ∧
        g'.width ≤ MAX_GRAPHIC_WIDTH ∧ g'.height ≤ MAX_GRAPHIC_HEIGHT) := by
  constructor
  · intro hzero
    simp only [GraphicData.resized, hr]
    rw [if_neg (by tauto), if_pos hzero]
  · intro hz1 hz2
    simp only [GraphicData.resized, hr]
    rw [if_neg (by tauto), if_neg (by tauto), if_neg (by simp [hpix])]
    split
    case isTrue hpa =>
      refine ⟨_, rfl, ?_, ?_⟩
      · exact (fit_resize_dims_le _ _ _ _ _ _ (by omega) (by omega)
          (Nat.min_le_right _ _) (Nat.min_le_right _ _)
          (by norm_num [MAX_GRAPHIC_WIDTH]) (by norm_num [MAX_GRAPHIC_HEIGHT])).1
      · exact (fit_resize_dims_le _ _ _ _ _ _ (by omega) (by omega)
          (Nat.min_le_right _ _) (Nat.min_le_right _ _)
          (by norm_num [MAX_GRAPHIC_WIDTH]) (by norm_num [MAX_GRAPHIC_HEIGHT])).2
    case isFalse hpa =>
      exact ⟨_, rfl, Nat.min_le_right _ _, Nat.min_le_right _ _⟩

/-- C9 counterexample: the width derived through one-axis `Auto` is
`1 * 1 / 2 = 0`, a computed axis dimension of zero, yet `resized` returns
`Some` (the zero check runs before the `Auto` derivation), producing a
zero-width graphic instead of dropping the item. -/
theorem c9_counterexample :
    c9src.resized 2 4 100 100 =
      some { column := 0, line := 0, width := 0, height := 1,
             color_type := .RGB, pixels := [], resize := none } := by
  decide

/-- C9 witness: the amended statement applied at a concrete graphic. -/
theorem c9_witness :
    c4src.resize = some { width := .Cells 2, height := .Pixels 2,
                          preserve_aspect_ratio := true } ∧
    (∃ g', c4src.resized 2 4 100 100 = some g' ∧
      g'.width ≤ MAX_GRAPHIC_WIDTH ∧ g'.height ≤ MAX_GRAPHIC_HEIGHT) := by
  refine ⟨by decide, ?_⟩
  exact (c9_resized_zero_axis c4src
    { width := .Cells 2, height := .Pixels 2, preserve_aspect_ratio := true }
    2 4 100 100 (by decide) (by decide) (by decide) (by decide) (by decide)).2
    (by decide) (by decide)

/-! ## Claim C8: degenerate pending images -/

/-- C8 (amended): a pending image with zero height for which no existing
region passes the engine's intersection filter is silently consumed: the
attach emits no command, allocates no texture, and leaves the store
untouched.  (A zero-width image with positive height is not silently
consumed — it allocates a texture and emits an `InitTexture`; and a
zero-height image for which some region passes the filter still emits blit
or resize commands; see the counterexample.) -/
theorem c8_degenerate_silent (si : SizeInfo) (graphics : Graphics)
    (commands : List GraphicsCommand) (g : GraphicData) (tex : Nat)
    (hh : g.height = 0)
    (hs : surfaceLines graphics g (graphicBottom si g) = []) :
    attach_graphics si graphics commands g tex =
      { graphics := graphics, commands := commands, g := g, tex_next := tex } := by
  simp only [attach_graphics, hs]
  simp [attachLoop, hh]

/-- C8 counterexample: attaching a degenerate (zero-width) image on the
empty store is not silently consumed: it emits an `InitTexture` command,
allocates a texture name, and inserts a region. -/
theorem c8_counterexample :
    (attach_graphics ⟨2, 4⟩ Graphics.default [] c8img 0).commands =
      [GraphicsCommand.InitTexture 0 c8img] ∧
    (attach_graphics ⟨2, 4⟩ Graphics.default [] c8img 0).tex_next = 1 ∧
    (attach_graphics ⟨2, 4⟩ Graphics.default [] c8img 0).graphics.attachments ≠ [] := by
  refine ⟨by decide, by decide, by decide⟩

/-- C8 witness: the amended statement applied at a concrete image. -/
theorem c8_witness :
    c8img0.height = 0 ∧
    attach_graphics ⟨2, 4⟩ Graphics.default [] c8img0 7 =
      { graphics := Graphics.default, commands := [], g := c8img0,
        tex_next := 7 } := by
  exact ⟨by decide, c8_degenerate_silent ⟨2, 4⟩ Graphics.default [] c8img0 7
    (by decide) (by decide)⟩

/-! ## Claim C7: upper split -/

/-- C7: when the top of the (remaining) image lies `k > 0` rows strictly
above the surface line being processed, the loop body first allocates a
fresh texture and emits exactly one extra `InitTexture` for a new region
anchored at the image's current top row and spanning exactly the `k` rows
above the surface (`k * cell_height` pixel rows taken from the front of the
pixel buffer), inserts that region, advances the image's row by `k` and
reduces its height by `k * cell_height`, and then processes the remainder
with the normal overlap-resolution step. -/
theorem c7_upper_split (si : SizeInfo) (st : AttachState) (l : Int)
    (hlt : st.g.line < l) :
    attachSurface si st l =
      blitStep si
        { graphics := st.graphics.attach st.g.line
            { texture := st.tex_next, column := st.g.column, bottom := l - 1,
              cell_height := si.cell_height, width := st.g.width,
              height := (l - st.g.line).toNat * si.cell_height },
          commands := st.commands ++ [GraphicsCommand.InitTexture st.tex_next
            { column := st.g.column, line := st.g.line, width := st.g.width,
              height := (l - st.g.line).toNat * si.cell_height,
              color_type := st.g.color_type,
              pixels := st.g.pixels.take ((l - st.g.line).toNat * si.cell_height
                * st.g.width * st.g.color_type.bytes_per_pixel),
              resize := none }],
          g := { st.g with
                 pixels := st.g.pixels.drop ((l - st.g.line).toNat * si.cell_height
                   * st.g.width * st.g.color_type.bytes_per_pixel),
                 height := st.g.height - (l - st.g.line).toNat * si.cell_height,
                 line := l },
          tex_next := st.tex_next + 1 } l := by
  unfold attachSurface upperSplit
  rw [if_pos (by omega : (0 : Int) < l - st.g.line)]
  have h1 : st.g.line + (l - st.g.line) = l := by omega
  simp only [h1]

/-- C7 witness: the statement applied at a concrete state, with the split
quantities evaluated. -/
theorem c7_witness :
    c7st.g.line < 1 ∧
    attachSurface ⟨2, 4⟩ c7st 1 =
      blitStep ⟨2, 4⟩
        { graphics := c7st.graphics.attach 0
            { texture := 5, column := 0, bottom := 0, cell_height := 4,
              width := 1, height := 4 },
          commands := [GraphicsCommand.InitTexture 5
            { column := 0, line := 0, width := 1, height := 4,
              color_type := .RGB, pixels := List.replicate 12 0,
              resize := none }],
          g := { column := 0, line := 1, width := 1, height := 4,
                 color_type := .RGB, pixels := List.replicate 12 0,
                 resize := none },
          tex_next := 6 } 1 := by
  constructor
  · decide
  · rw [c7_upper_split ⟨2, 4⟩ c7st 1 (by decide)]
    rfl

/-! ## Claim C6: the resize-or-reuse decision -/

/-- C6: for a surface processed by the copy step of `attach_graphics`, a
`ResizeTexture` command replacing that surface's resource is emitted if and
only if the surface's left edge is strictly right of the image's left edge,
or its right edge is strictly left of the image's right edge, or its pixel
height is not an exact multiple of the current cell height; otherwise the
existing texture name is reused for the subsequent pixel copy. -/
theorem c6_resize_condition (si : SizeInfo) (st : AttachState) (l : Int)
    (surface : GraphicItem) (hcw : 0 < si.cell_width)
    (hl : alookup l st.graphics.attachments = some surface) :
    ∃ emitted, (blitStep si st l).commands = st.commands ++ emitted ∧
      ((∃ d, GraphicsCommand.ResizeTexture d ∈ emitted) ↔
        (si.cell_width * st.g.column < si.cell_width * surface.column
          ∨ si.cell_width * surface.column + surface.width
              < si.cell_width * st.g.column + st.g.width
          ∨ surface.height % si.cell_height ≠ 0)) ∧
      (∀ d, GraphicsCommand.ResizeTexture d ∈ emitted → d.source = surface) ∧
      (¬ needResize si surface st.g →
        ∃ bd, emitted = [GraphicsCommand.BlitGraphic bd]
          ∧ bd.texture = surface.texture) := by
  have hiff : needResize si surface st.g ↔
      (si.cell_width * st.g.column < si.cell_width * surface.column
        ∨ si.cell_width * surface.column + surface.width
            < si.cell_width * st.g.column + st.g.width
        ∨ surface.height % si.cell_height ≠ 0) := by
    unfold needResize
    rw [Nat.mul_lt_mul_left hcw]
  simp only [blitStep, hl]
  by_cases hnr : needResize si surface st.g
  · simp only [if_pos hnr]
    split <;>
    · refine ⟨_, List.append_assoc _ _ _, ?_, ?_, ?_⟩
      · exact iff_of_true
          ⟨_, List.mem_append_left _ (List.mem_singleton_self _)⟩ (hiff.mp hnr)
      · intro d' hd'
        simp only [List.cons_append, List.nil_append, List.mem_cons,
          List.not_mem_nil, or_false, GraphicsCommand.ResizeTexture.injEq,
          reduceCtorEq] at hd'
        subst hd'
        rfl
      · exact fun hcon => absurd hnr hcon
  · simp only [if_neg hnr]
    split <;>
    · refine ⟨_, rfl, ?_, ?_, ?_⟩
      · refine iff_of_false ?_ (fun hc => hnr (hiff.mpr hc))
        rintro ⟨d', hd'⟩
        simp at hd'
      · intro d' hd'
        simp at hd'
      · exact fun _ => ⟨_, rfl, rfl⟩

/-- C6 witness: the resize-or-reuse decision applied to a concrete surface
exactly covered by the image (no resize, texture reuse). -/
theorem c6_witness :
    0 < (2 : Nat) ∧
    alookup 0 c6st.graphics.attachments = some c6surface ∧
    (∃ emitted, (blitStep ⟨2, 4⟩ c6st 0).commands = c6st.commands ++ emitted ∧
      ((∃ d, GraphicsCommand.ResizeTexture d ∈ emitted) ↔
        (2 * c6st.g.column < 2 * c6surface.column
          ∨ 2 * c6surface.column + c6surface.width
              < 2 * c6st.g.column + c6st.g.width
          ∨ c6surface.height % 4 ≠ 0)) ∧
      (∀ d, GraphicsCommand.ResizeTexture d ∈ emitted → d.source = c6surface) ∧
      (¬ needResize ⟨2, 4⟩ c6surface c6st.g →
        ∃ bd, emitted = [GraphicsCommand.BlitGraphic bd]
          ∧ bd.texture = c6surface.texture)) :=
  ⟨by decide, by decide,
    c6_resize_condition ⟨2, 4⟩ c6st 0 c6surface (by decide) (by decide)⟩

/-! ## Claim C5: fully covered image -/

/-- C5 (amended): when the new image's rectangle is fully covered by a
single existing region — same top row, column span within the region's
pixel bounds, pixel height within the region's — and additionally the
region's pixel height is an exact multiple of the current cell height,
attaching the image emits exactly one `BlitGraphic` command (on the
region's existing texture), zero `InitTexture` and zero `ResizeTexture`
commands, allocates no texture name, and leaves the index unchanged.
(Without the cell-alignment condition the engine first re-creates the
region's texture with a `ResizeTexture`; see the counterexample.) -/
theorem c5_covered_single_blit (si : SizeInfo) (store : Graphics)
    (cmds : List GraphicsCommand) (g : GraphicData) (tex : Nat)
    (r : GraphicItem)
    (hch : 0 < si.cell_height)
    (hinv : StoreInv si.cell_height store.attachments)
    (hmem : (g.line, r) ∈ store.attachments)
    (hcol : r.column ≤ g.column)
    (hright : si.cell_width * g.column + g.width
      ≤ si.cell_width * r.column + r.width)
    (hmod : r.height % si.cell_height = 0)
    (hhle : g.height ≤ r.height)
    (hpos : 0 < g.height) :
    attach_graphics si store cmds g tex =
      { graphics := store,
        commands := cmds ++ [GraphicsCommand.BlitGraphic
          { texture := r.texture,
            offset_x := (g.column - r.column) * si.cell_width,
            offset_y := 0, width := g.width, height := g.height,
            color_type := g.color_type, pixels := g.pixels }],
        g := { g with height := 0, pixels := [] },
        tex_next := tex } := by
  obtain ⟨hwfAll, hp⟩ := hinv
  have hwfs : ∀ e ∈ store.attachments, e.1 ≤ e.2.bottom :=
    fun e he => (hwfAll e he).1
  obtain ⟨hr1, hr2, hr3, hr4⟩ := hwfAll (g.line, r) hmem
  have hr1' : g.line ≤ r.bottom := hr1
  have hr4' : (r.height : Int) ≤ (r.bottom - g.line + 1) * si.cell_height := hr4
  -- Bounds on the candidate bottom row.
  have hceil1 : 0 < ceilDivNat g.height si.cell_height :=
    ceilDivNat_pos _ _ hch hpos
  have hD : ((r.bottom - g.line).toNat : Int) = r.bottom - g.line := by omega
  have hhle2 : g.height ≤ ((r.bottom - g.line).toNat + 1) * si.cell_height := by
    have h5 : (g.height : Int) ≤ (r.bottom - g.line + 1) * si.cell_height := by
      refine le_trans ?_ hr4'
      exact_mod_cast hhle
    rw [← hD] at h5
    exact_mod_cast h5
  have hceil2 : ceilDivNat g.height si.cell_height
      ≤ (r.bottom - g.line).toNat + 1 :=
    ceilDivNat_le_of_le _ _ _ hch hhle2
  have hb1 : g.line ≤ graphicBottom si g := by
    unfold graphicBottom; omega
  have hb2 : graphicBottom si g ≤ r.bottom := by
    unfold graphicBottom; omega
  -- The intersection query finds exactly the covering region.
  have hlines : surfaceLines store g (graphicBottom si g) = [g.line] := by
    unfold surfaceLines
    rw [filter_eq_single (storeInv_nodup hp hwfs) hmem ?_ ?_]
    · rfl
    · simp only [Bool.and_eq_true, decide_eq_true_eq]
      refine ⟨⟨?_, ?_⟩, ?_⟩
      · exact (by omega : g.line - (ROWS_PER_GRAPHIC : Int) ≤ g.line)
      · exact hb1
      · exact hr1'
    · intro e he hne
      by_contra hpe
      rw [Bool.not_eq_false] at hpe
      simp only [Bool.and_eq_true, decide_eq_true_eq] at hpe
      obtain ⟨⟨hpe1, hpe2⟩, hpe3⟩ := hpe
      rcases pairwise_below_total hp he hmem hne with hb | hb
      · unfold Below at hb
        simp only at hb
        omega
      · unfold Below at hb
        simp only at hb
        omega
  have hlook : alookup g.line store.attachments = some r :=
    alookup_eq_some_of_mem hp hwfs hmem
  have hnr : ¬ needResize si r g := by
    unfold needResize
    push_neg
    exact ⟨by omega, by omega, hmod⟩
  simp only [attach_graphics, hlines]
  have hloop : ∀ st : AttachState, attachLoop si [g.line] st
      = attachSurface si st g.line := by
    intro st
    simp only [attachLoop]
    split <;> rfl
  rw [hloop]
  unfold attachSurface
  have hsplit : upperSplit si
      { graphics := store, commands := cmds, g := g, tex_next := tex } g.line
      = { graphics := store, commands := cmds, g := g, tex_next := tex } := by
    unfold upperSplit
    rw [if_neg (by omega : ¬ (0 : Int) < g.line - g.line)]
  rw [hsplit]
  simp only [blitStep, hlook, if_neg hnr]
  simp only [sub_self, zero_mul, Int.toNat_zero, Nat.sub_zero]
  rw [if_pos hhle]
  simp [hpos]

/-- C5 counterexample: attaching the same 1×3px image twice (cell height
4px) makes the second attach emit a `ResizeTexture` before its
`BlitGraphic`, because the region's height 3 is not a multiple of the cell
height — two items with identical row, column and dimensions do not yield
exactly one `BlitPixels` with zero resize commands. -/
theorem c5_counterexample :
    (attach_graphics ⟨2, 4⟩ c5store [] c5img 1).commands =
      [GraphicsCommand.ResizeTexture
        { target_texture := 1,
          source := { texture := 0, column := 0, bottom := 0,
                      cell_height := 4, width := 1, height := 3 },
          source_offset := 0, width := 1, height := 4 },
       GraphicsCommand.BlitGraphic
        { texture := 1, offset_x := 0, offset_y := 0, width := 1,
          height := 3, color_type := .RGB,
          pixels := List.replicate 9 0 }] := by
  decide

/-- C5 witness: the amended statement applied at a concrete store. -/
theorem c5_witness :
    (0 < 4 ∧ StoreInv 4 c5wstore.attachments ∧
      ((0 : Int), c5item) ∈ c5wstore.attachments ∧ c5item.height % 4 = 0) ∧
    attach_graphics ⟨2, 4⟩ c5wstore [] c5w 1 =
      { graphics := c5wstore,
        commands := [GraphicsCommand.BlitGraphic
          { texture := 0, offset_x := 0, offset_y := 0, width := 1,
            height := 4, color_type := .RGB,
            pixels := List.replicate 12 0 }],
        g := { c5w with height := 0, pixels := [] },
        tex_next := 1 } := by
  refine ⟨⟨by decide, by decide, by decide, by decide⟩, ?_⟩
  exact c5_covered_single_blit ⟨2, 4⟩ c5wstore [] c5w 1 c5item (by decide)
    (by decide) (by decide) (by decide) (by decide) (by decide) (by decide)
    (by decide)

/-! ## Claim C2: sequences of non-overlapping images -/

/-- Attaching an image that overlaps no existing region emits exactly one
`InitTexture` and inserts exactly one region. -/
theorem attach_no_overlap (si : SizeInfo) (store : Graphics)
    (cmds : List GraphicsCommand) (g : GraphicData) (tex : Nat)
    (hpos : 0 < g.height)
    (hdisj : ∀ e ∈ store.attachments,
      graphicBottom si g < e.1 ∨ e.2.bottom < g.line) :
    attach_graphics si store cmds g tex =
      { graphics := store.attach g.line (freshItem si g tex),
        commands := cmds ++ [GraphicsCommand.InitTexture tex g],
        g := g, tex_next := tex + 1 } := by
  unfold freshItem
  have hlines : surfaceLines store g (graphicBottom si g) = [] := by
    unfold surfaceLines
    rw [List.filter_eq_nil_iff.mpr ?_]
    · rfl
    · intro e he
      simp only [Bool.and_eq_true, decide_eq_true_eq, not_and]
      intro h12 h3
      obtain ⟨h1a, h2a⟩ := h12
      rcases hdisj e he with hcase | hcase <;> omega
  simp only [attach_graphics, hlines, attachLoop]
  rw [if_pos hpos]

/-- The inductive core of C2, tracking the invariants through the
sequence. -/
theorem attachSeq_no_overlap (si : SizeInfo) :
    ∀ (gs : List GraphicData) (store : Graphics)
      (cmds : List GraphicsCommand) (tex : Nat),
    0 < si.cell_height →
    (∀ e ∈ store.attachments, e.1 ≤ e.2.bottom) →
    store.attachments.Pairwise Below →
    (∀ g ∈ gs, 0 < g.height) →
    (∀ g ∈ gs, ∀ e ∈ store.attachments,
      graphicBottom si g < e.1 ∨ e.2.bottom < g.line) →
    gs.Pairwise (fun a b =>
      graphicBottom si a < b.line ∨ graphicBottom si b < a.line) →
    (attachSeq si gs store cmds tex).2.1 = cmds ++ initCmds gs tex ∧
    (attachSeq si gs store cmds tex).2.2 = tex + gs.length ∧
    (attachSeq si gs store cmds tex).1.attachments.length
      = store.attachments.length + gs.length ∧
    (∀ e ∈ (attachSeq si gs store cmds tex).1.attachments, e.1 ≤ e.2.bottom) ∧
    (attachSeq si gs store cmds tex).1.attachments.Pairwise Below := by
  intro gs
  induction gs with
  | nil =>
    intro store cmds tex _ hwf hp _ _ _
    simp only [attachSeq, initCmds, List.append_nil, List.length_nil,
      Nat.add_zero]
    exact ⟨trivial, trivial, trivial, hwf, hp⟩
  | cons g rest ih =>
    intro store cmds tex hch hwf hp hpos hdisj hpair
    have hposg := hpos g (List.mem_cons_self g rest)
    have hdisjg := hdisj g (List.mem_cons_self g rest)
    have hbg : g.line ≤ graphicBottom si g := by
      have := ceilDivNat_pos g.height si.cell_height hch hposg
      unfold graphicBottom
      omega
    have hkfresh : ∀ e ∈ store.attachments, e.1 ≠ g.line := by
      intro e he heq
      have hwfe := hwf e he
      rcases hdisjg e he with hcase | hcase <;> omega
    have hstep := attach_no_overlap si store cmds g tex hposg hdisjg
    have hgoal : attachSeq si (g :: rest) store cmds tex
        = attachSeq si rest (store.attach g.line (freshItem si g tex))
            (cmds ++ [GraphicsCommand.InitTexture tex g]) (tex + 1) := by
      simp only [attachSeq, hstep]
    have hbot : (freshItem si g tex).bottom = graphicBottom si g := rfl
    have hmemi := @mem_ainsert store.attachments g.line (freshItem si g tex)
      hkfresh
    have hatt : (store.attach g.line (freshItem si g tex)).attachments
        = ainsert g.line (freshItem si g tex) store.attachments := rfl
    have hwf1 : ∀ e ∈ (store.attach g.line (freshItem si g tex)).attachments,
        e.1 ≤ e.2.bottom := by
      intro e he
      rw [hatt] at he
      rcases (hmemi e).mp he with rfl | he'
      · exact hbg
      · exact hwf e he'
    have hp1 : (store.attach g.line
        (freshItem si g tex)).attachments.Pairwise Below := by
      rw [hatt]
      refine ainsert_pairwise hp hwf hbg ?_
      intro e he
      rcases hdisjg e he with hcase | hcase
      · exact Or.inl hcase
      · exact Or.inr hcase
    have hdisj1 : ∀ g' ∈ rest,
        ∀ e ∈ (store.attach g.line (freshItem si g tex)).attachments,
        graphicBottom si g' < e.1 ∨ e.2.bottom < g'.line := by
      intro g' hg' e he
      rw [hatt] at he
      rcases (hmemi e).mp he with rfl | he'
      · rcases (List.pairwise_cons.mp hpair).1 g' hg' with hcase | hcase
        · exact Or.inr hcase
        · exact Or.inl hcase
      · exact hdisj g' (List.mem_cons_of_mem g hg') e he'
    obtain ⟨ha, hb, hc, hd, he⟩ := ih (store.attach g.line (freshItem si g tex))
      (cmds ++ [GraphicsCommand.InitTexture tex g]) (tex + 1) hch hwf1 hp1
      (fun x hx => hpos x (List.mem_cons_of_mem g hx)) hdisj1
      (List.pairwise_cons.mp hpair).2
    rw [hgoal]
    refine ⟨?_, ?_, ?_, hd, he⟩
    · rw [ha, initCmds]
      simp
    · rw [hb]
      simp only [List.length_cons]
      omega
    · rw [hc, hatt, ainsert_length hkfresh]
      simp only [List.length_cons]
      omega

/-- C2 (amended): for every sequence of pending images with positive
heights whose row intervals are pairwise disjoint and disjoint from all
existing regions, attaching them in order emits exactly one `InitTexture`
command per image (with consecutive fresh texture names) and no other
command, and afterwards the attachment index has grown by exactly that many
regions, all regions pairwise disjoint.  (A zero-height image emits no
command at all, and with a non-empty starting index the index ends with the
old regions plus the new ones; see the counterexample.) -/
theorem c2_disjoint_sequence (si : SizeInfo) (gs : List GraphicData)
    (store : Graphics) (cmds : List GraphicsCommand) (tex : Nat)
    (hch : 0 < si.cell_height)
    (hwf : ∀ e ∈ store.attachments, e.1 ≤ e.2.bottom)
    (hp : store.attachments.Pairwise Below)
    (hpos : ∀ g ∈ gs, 0 < g.height)
    (hdisj : ∀ g ∈ gs, ∀ e ∈ store.attachments,
      graphicBottom si g < e.1 ∨ e.2.bottom < g.line)
    (hpair : gs.Pairwise (fun a b =>
      graphicBottom si a < b.line ∨ graphicBottom si b < a.line)) :
    (attachSeq si gs store cmds tex).2.1 = cmds ++ initCmds gs tex ∧
    (attachSeq si gs store cmds tex).1.attachments.length
      = store.attachments.length + gs.length ∧
    (attachSeq si gs store cmds tex).1.attachments.Pairwise regionsDisjoint := by
  obtain ⟨ha, _, hc, _, he⟩ := attachSeq_no_overlap si gs store cmds tex
    hch hwf hp hpos hdisj hpair
  exact ⟨ha, hc, he.imp (fun h => Or.inl h)⟩

/-- C2 counterexample: a single zero-height image (row interval
`[0, -1]`, disjoint from everything) emits no command at all and adds no
region, not exactly one `InitTexture` per image. -/
theorem c2_counterexample :
    (attachSeq ⟨2, 4⟩ [c2img0] Graphics.default [] 0).2.1 = [] ∧
    (attachSeq ⟨2, 4⟩ [c2img0] Graphics.default [] 0).1.attachments = [] ∧
    [c2img0].length = 1 := by
  refine ⟨by decide, by decide, by decide⟩

/-- C2 witness: the amended statement applied to two disjoint images on the
empty store. -/
theorem c2_witness :
    ((0 : Nat) < 4 ∧ 0 < c2imgA.height ∧ 0 < c2imgB.height ∧
      graphicBottom ⟨2, 4⟩ c2imgA < c2imgB.line) ∧
    ((attachSeq ⟨2, 4⟩ [c2imgA, c2imgB] Graphics.default [] 0).2.1
      = [] ++ initCmds [c2imgA, c2imgB] 0 ∧
    (attachSeq ⟨2, 4⟩ [c2imgA, c2imgB] Graphics.default [] 0).1.attachments.length
      = Graphics.default.attachments.length + [c2imgA, c2imgB].length ∧
    (attachSeq ⟨2, 4⟩ [c2imgA, c2imgB] Graphics.default []
      0).1.attachments.Pairwise regionsDisjoint) := by
  refine ⟨⟨by decide, by decide, by decide, by decide⟩, ?_⟩
  exact c2_disjoint_sequence ⟨2, 4⟩ [c2imgA, c2imgB] Graphics.default [] 0
    (by decide) (fun e he => ((List.not_mem_nil e) he).elim)
    List.Pairwise.nil (by decide)
    (fun g' hg' e he => ((List.not_mem_nil e) he).elim) (by decide)

/-! ## Machinery for the attach loop invariant (C1, C10) -/

/-- A successful lookup yields a member. -/
theorem alookup_some_mem :
    ∀ {l : List (Int × GraphicItem)} {k : Int} {v : GraphicItem},
    alookup k l = some v → (k, v) ∈ l := by
  intro l
  induction l with
  | nil => intro k v h; cases h
  | cons e rest ih =>
    intro k v h
    rw [alookup] at h
    by_cases hk : e.1 = k
    · rw [if_pos hk] at h
      cases h
      have : e = (k, e.2) := Prod.ext hk rfl
      rw [← this]
      exact List.mem_cons_self e rest
    · rw [if_neg hk] at h
      exact List.mem_cons_of_mem e (ih h)

/-- In a sorted disjoint index, an entry is determined by its key. -/
theorem mem_key_unique {l : List (Int × GraphicItem)} {k : Int}
    {v : GraphicItem} {e : Int × GraphicItem}
    (hp : l.Pairwise Below) (hwf : ∀ x ∈ l, x.1 ≤ x.2.bottom)
    (hkv : (k, v) ∈ l) (he : e ∈ l) (hek : e.1 = k) : e = (k, v) := by
  have h1 : alookup k l = some v := alookup_eq_some_of_mem hp hwf hkv
  have h2 : alookup k l = some e.2 := by
    have : (k, e.2) ∈ l := by
      have : e = (k, e.2) := Prod.ext hek rfl
      rwa [← this]
    exact alookup_eq_some_of_mem hp hwf this
  rw [h1] at h2
  cases h2
  exact Prod.ext hek rfl

/-- In a sorted disjoint well-formed index, the entry with the smaller key
lies entirely above the other key. -/
theorem below_of_key_lt {l : List (Int × GraphicItem)} {k1 k2 : Int}
    {r1 r2 : GraphicItem}
    (hp : l.Pairwise Below) (hwf : ∀ x ∈ l, x.1 ≤ x.2.bottom)
    (h1 : (k1, r1) ∈ l) (h2 : (k2, r2) ∈ l) (hk : k1 < k2) :
    r1.bottom < k2 := by
  have hne : (k1, r1) ≠ (k2, r2) := by
    intro heq
    cases heq
    omega
  rcases pairwise_below_total hp h1 h2 hne with hb | hb
  · exact hb
  · exfalso
    have hb' : r2.bottom < k1 := hb
    have := hwf (k2, r2) h2
    have h2w : k2 ≤ r2.bottom := this
    omega

/-- A half-open multiple interval `(D*ch, (D+1)*ch]` contains exactly one
multiple of `ch`. -/
theorem mult_in_unit_interval (ch D h : Nat) (hch : 0 < ch) (hd : ch ∣ h)
    (h1 : D * ch < h) (h2 : h ≤ (D + 1) * ch) : h = (D + 1) * ch := by
  obtain ⟨m, rfl⟩ := hd
  have hm1 : D < m := by
    have : ch * D < ch * m := by
      calc ch * D = D * ch := Nat.mul_comm D ch |>.symm
      _ < ch * m := h1
    exact Nat.lt_of_mul_lt_mul_left this
  have hm2 : m ≤ D + 1 := by
    have : ch * m ≤ ch * (D + 1) := by
      calc ch * m ≤ (D + 1) * ch := h2
      _ = ch * (D + 1) := Nat.mul_comm _ _
    exact Nat.le_of_mul_le_mul_left this hch
  have : m = D + 1 := by omega
  rw [this, Nat.mul_comm]

/-- Removing a key preserves the store invariant. -/
theorem storeInv_aremove {ch : Nat} {l : List (Int × GraphicItem)}
    (hinv : StoreInv ch l) (k : Int) : StoreInv ch (aremove k l) := by
  refine ⟨?_, List.Pairwise.sublist (aremove_sublist k l) hinv.2⟩
  intro e he
  exact hinv.1 e ((aremove_sublist k l).subset he)

/-- Inserting a well-formed entry disjoint from all present ones preserves
the store invariant, and the insertion point was free (the
`debug_assert` condition). -/
theorem storeInv_insert {ch : Nat} {l : List (Int × GraphicItem)} {k : Int}
    {v : GraphicItem}
    (hinv : StoreInv ch l) (hv : EntryWF ch (k, v))
    (hd : ∀ e ∈ l, v.bottom < e.1 ∨ e.2.bottom < k) :
    StoreInv ch (ainsert k v l) ∧ (alookup k l).isNone = true := by
  have hwfs : ∀ e ∈ l, e.1 ≤ e.2.bottom := fun e he => (hinv.1 e he).1
  have hkv : k ≤ v.bottom := hv.1
  have hk := keys_ne_of_disjoint hwfs hkv hd
  refine ⟨⟨?_, ainsert_pairwise hinv.2 hwfs hkv hd⟩, ?_⟩
  · intro e he
    rcases (mem_ainsert hk e).mp he with rfl | he'
    · exact hv
    · exact hinv.1 e he'
  · rw [alookup_eq_none_iff.mpr hk]
    rfl

/-- The upper-split phase, written out (for `st.g.line < l`). -/
theorem upperSplit_eq (si : SizeInfo) (st : AttachState) (l : Int)
    (hlt : st.g.line < l) :
    upperSplit si st l =
      { graphics := st.graphics.attach st.g.line
          { texture := st.tex_next, column := st.g.column, bottom := l - 1,
            cell_height := si.cell_height, width := st.g.width,
            height := (l - st.g.line).toNat * si.cell_height },
        commands := st.commands ++ [GraphicsCommand.InitTexture st.tex_next
          { column := st.g.column, line := st.g.line, width := st.g.width,
            height := (l - st.g.line).toNat * si.cell_height,
            color_type := st.g.color_type,
            pixels := st.g.pixels.take ((l - st.g.line).toNat * si.cell_height
              * st.g.width * st.g.color_type.bytes_per_pixel),
            resize := none }],
        g := { st.g with
               pixels := st.g.pixels.drop ((l - st.g.line).toNat
                 * si.cell_height * st.g.width
                 * st.g.color_type.bytes_per_pixel),
               height := st.g.height - (l - st.g.line).toNat * si.cell_height,
               line := l },
        tex_next := st.tex_next + 1 } := by
  unfold upperSplit
  rw [if_pos (by omega : (0 : Int) < l - st.g.line)]
  have h1 : st.g.line + (l - st.g.line) = l := by omega
  simp only [h1]

/-- The upper-split phase is the identity when nothing lies above the
surface. -/
theorem upperSplit_eq_self (si : SizeInfo) (st : AttachState) (l : Int)
    (hge : ¬ st.g.line < l) : upperSplit si st l = st := by
  unfold upperSplit
  rw [if_neg (by omega : ¬ (0 : Int) < l - st.g.line)]

/-- Invariant facts across the upper-split phase of one loop iteration of
`attach_graphics` (for an image with rows remaining). -/
theorem upperSplit_inv (si : SizeInfo) (line0 bottom0 : Int)
    (hch : 0 < si.cell_height)
    (hspan : bottom0 - line0 + 1 ≤ (ROWS_PER_GRAPHIC : Int))
    (st : AttachState) (l : Int) (rem' : List Int) (r : GraphicItem)
    (hinv : StoreInv si.cell_height st.graphics.attachments)
    (hflag : st.graphics.debug_attach_ok = true)
    (hline0 : line0 ≤ st.g.line)
    (hhb : (bottom0 - st.g.line) * (si.cell_height : Int) < (st.g.height : Int)
      ∧ (st.g.height : Int)
        ≤ (bottom0 - st.g.line + 1) * (si.cell_height : Int))
    (hh0 : 0 < st.g.height)
    (hgap : ∀ e ∈ st.graphics.attachments,
      e.1 ∈ l :: rem' ∨ e.2.bottom < st.g.line ∨ bottom0 < e.1)
    (hsorted : (l :: rem').Pairwise (fun a b => a < b))
    (hlb : l ≤ bottom0)
    (hrmem : (l, r) ∈ st.graphics.attachments)
    (hlineOr : st.g.line ≤ l ∨ st.g.line ≤ r.bottom)
    (hrem : ∀ x ∈ rem', x ≤ bottom0 ∧
      ∃ rx, (x, rx) ∈ st.graphics.attachments ∧ line0 ≤ rx.bottom) :
    0 < (upperSplit si st l).g.height ∧
    line0 ≤ (upperSplit si st l).g.line ∧
    l ≤ (upperSplit si st l).g.line ∧
    (upperSplit si st l).g.line ≤ r.bottom ∧
    ((bottom0 - (upperSplit si st l).g.line) * (si.cell_height : Int)
        < ((upperSplit si st l).g.height : Int) ∧
      ((upperSplit si st l).g.height : Int)
        ≤ (bottom0 - (upperSplit si st l).g.line + 1)
            * (si.cell_height : Int)) ∧
    StoreInv si.cell_height (upperSplit si st l).graphics.attachments ∧
    (upperSplit si st l).graphics.debug_attach_ok = true ∧
    (l, r) ∈ (upperSplit si st l).graphics.attachments ∧
    (∀ e ∈ (upperSplit si st l).graphics.attachments,
      e.1 = l ∨ e.1 ∈ rem' ∨ e.2.bottom < (upperSplit si st l).g.line
        ∨ bottom0 < e.1) ∧
    (∀ x ∈ rem', l < x ∧ x ≤ bottom0 ∧
      ∃ rx, (x, rx) ∈ (upperSplit si st l).graphics.attachments
        ∧ line0 ≤ rx.bottom) := by
  have hwfs : ∀ e ∈ st.graphics.attachments, e.1 ≤ e.2.bottom :=
    fun e he => (hinv.1 e he).1
  have hlr : l ≤ r.bottom := hwfs (l, r) hrmem
  have hsortedHead : ∀ x ∈ rem', l < x := (List.pairwise_cons.mp hsorted).1
  by_cases hsplit : st.g.line < l
  case neg =>
    rw [upperSplit_eq_self si st l hsplit]
    have hlineb : st.g.line ≤ r.bottom := by
      rcases hlineOr with hcase | hcase
      · omega
      · exact hcase
    refine ⟨hh0, hline0, by omega, hlineb, hhb, hinv, hflag, hrmem, ?_, ?_⟩
    · intro e he
      rcases hgap e he with hin | hcase | hcase
      · rcases List.mem_cons.mp hin with heq | hin'
        · exact Or.inl heq
        · exact Or.inr (Or.inl hin')
      · exact Or.inr (Or.inr (Or.inl hcase))
      · exact Or.inr (Or.inr (Or.inr hcase))
    · intro x hx
      exact ⟨hsortedHead x hx, (hrem x hx).1, (hrem x hx).2⟩
  case pos =>
    rw [upperSplit_eq si st l hsplit]
    have hK : (((l - st.g.line).toNat : Nat) : Int) = l - st.g.line := by omega
    have hchI : (0 : Int) < (si.cell_height : Int) := by exact_mod_cast hch
    have hkch : (((l - st.g.line).toNat * si.cell_height : Nat) : Int)
        < (st.g.height : Int) := by
      push_cast
      rw [hK]
      have hmono : (l - st.g.line) * (si.cell_height : Int)
          ≤ (bottom0 - st.g.line) * (si.cell_height : Int) :=
        mul_le_mul_of_nonneg_right (by omega) (by omega)
      linarith [hhb.1]
    have hkchN : (l - st.g.line).toNat * si.cell_height < st.g.height := by
      exact_mod_cast hkch
    have hsubI : ((st.g.height
          - (l - st.g.line).toNat * si.cell_height : Nat) : Int)
        = (st.g.height : Int) - (l - st.g.line) * (si.cell_height : Int) := by
      rw [Nat.cast_sub hkchN.le]
      push_cast
      rw [hK]
    have hU : EntryWF si.cell_height (st.g.line,
        { texture := st.tex_next, column := st.g.column, bottom := l - 1,
          cell_height := si.cell_height, width := st.g.width,
          height := (l - st.g.line).toNat * si.cell_height }) := by
      refine ⟨?_, ?_, ?_, ?_⟩
      · show st.g.line ≤ (l : Int) - 1
        omega
      · show (l : Int) - 1 - st.g.line + 1 ≤ (ROWS_PER_GRAPHIC : Int)
        omega
      · show (l - 1 - st.g.line) * (si.cell_height : Int)
          < (((l - st.g.line).toNat * si.cell_height : Nat) : Int)
        push_cast
        rw [hK]
        have hid : (l - st.g.line) * (si.cell_height : Int)
            - (l - 1 - st.g.line) * (si.cell_height : Int)
            = (si.cell_height : Int) := by ring
        linarith
      · show (((l - st.g.line).toNat * si.cell_height : Nat) : Int)
          ≤ (l - 1 - st.g.line + 1) * (si.cell_height : Int)
        push_cast
        rw [hK]
        have hid : (l - 1 - st.g.line + 1) * (si.cell_height : Int)
            = (l - st.g.line) * (si.cell_height : Int) := by ring
        linarith
    have hd : ∀ e ∈ st.graphics.attachments,
        (l - 1 : Int) < e.1 ∨ e.2.bottom < st.g.line := by
      intro e he
      rcases hgap e he with hin | hc | hc
      · rcases List.mem_cons.mp hin with heq | hin'
        · left; omega
        · left
          have := hsortedHead e.1 hin'
          omega
      · right; exact hc
      · left; omega
    have hkeys : ∀ e ∈ st.graphics.attachments, e.1 ≠ st.g.line :=
      @keys_ne_of_disjoint st.graphics.attachments st.g.line
        { texture := st.tex_next, column := st.g.column, bottom := l - 1,
          cell_height := si.cell_height, width := st.g.width,
          height := (l - st.g.line).toNat * si.cell_height }
        hwfs ((by omega : st.g.line ≤ (l : Int) - 1)) hd
    have hSI := storeInv_insert hinv hU hd
    refine ⟨?_, (by omega : line0 ≤ l), le_refl l, hlr, ⟨?_, ?_⟩, hSI.1, ?_, ?_, ?_, ?_⟩
    · show 0 < st.g.height - (l - st.g.line).toNat * si.cell_height
      omega
    · show (bottom0 - l) * (si.cell_height : Int)
        < ((st.g.height - (l - st.g.line).toNat * si.cell_height : Nat) : Int)
      rw [hsubI]
      have hring : (bottom0 - l) * (si.cell_height : Int)
          + (l - st.g.line) * (si.cell_height : Int)
          = (bottom0 - st.g.line) * (si.cell_height : Int) := by ring
      linarith [hhb.1]
    · show ((st.g.height - (l - st.g.line).toNat * si.cell_height : Nat) : Int)
        ≤ (bottom0 - l + 1) * (si.cell_height : Int)
      rw [hsubI]
      have hring : (bottom0 - l + 1) * (si.cell_height : Int)
          + (l - st.g.line) * (si.cell_height : Int)
          = (bottom0 - st.g.line + 1) * (si.cell_height : Int) := by ring
      linarith [hhb.2]
    · show (st.graphics.debug_attach_ok
        && (alookup st.g.line st.graphics.attachments).isNone) = true
      rw [hflag, hSI.2]
      rfl
    · exact (mem_ainsert hkeys (l, r)).mpr (Or.inr hrmem)
    · intro e he
      rcases (mem_ainsert hkeys e).mp he with rfl | he'
      · exact Or.inr (Or.inr (Or.inl ((by omega : (l : Int) - 1 < l))))
      · rcases hgap e he' with hin | hc | hc
        · rcases List.mem_cons.mp hin with heq | hin'
          · exact Or.inl heq
          · exact Or.inr (Or.inl hin')
        · refine Or.inr (Or.inr (Or.inl ?_))
          show e.2.bottom < l
          omega
        · exact Or.inr (Or.inr (Or.inr hc))
    · intro x hx
      obtain ⟨hxb, rx, hrx1, hrx2⟩ := hrem x hx
      exact ⟨hsortedHead x hx, hxb,
        rx, (mem_ainsert hkeys (x, rx)).mpr (Or.inr hrx1), hrx2⟩

/-- Invariant facts across the copy phase of one loop iteration of
`attach_graphics`: the store invariant and the assertion flag survive, and
when rows remain the loop invariant is re-established for the remaining
surface lines. -/
theorem blitStep_inv (si : SizeInfo) (line0 bottom0 : Int)
    (hch : 0 < si.cell_height)
    (st : AttachState) (l : Int) (rem' : List Int) (r : GraphicItem)
    (hinv : StoreInv si.cell_height st.graphics.attachments)
    (hflag : st.graphics.debug_attach_ok = true)
    (hrmem : (l, r) ∈ st.graphics.attachments)
    (hline0 : line0 ≤ st.g.line)
    (hll : l ≤ st.g.line) (hlrb : st.g.line ≤ r.bottom)
    (hhb : 0 < st.g.height →
      (bottom0 - st.g.line) * (si.cell_height : Int) < (st.g.height : Int) ∧
      (st.g.height : Int) ≤ (bottom0 - st.g.line + 1) * (si.cell_height : Int))
    (hgap : ∀ e ∈ st.graphics.attachments,
      e.1 = l ∨ e.1 ∈ rem' ∨ e.2.bottom < st.g.line ∨ bottom0 < e.1)
    (hsorted' : rem'.Pairwise (fun a b => a < b))
    (hrem : ∀ x ∈ rem', l < x ∧ x ≤ bottom0 ∧
      ∃ rx, (x, rx) ∈ st.graphics.attachments ∧ line0 ≤ rx.bottom) :
    (StoreInv si.cell_height (blitStep si st l).graphics.attachments ∧
      (blitStep si st l).graphics.debug_attach_ok = true) ∧
    ((blitStep si st l).g.height ≠ 0 →
      LoopInv si line0 bottom0 (blitStep si st l) rem') := by
  have hwfs : ∀ e ∈ st.graphics.attachments, e.1 ≤ e.2.bottom :=
    fun e he => (hinv.1 e he).1
  have hwfr := hinv.1 (l, r) hrmem
  have hr1 : l ≤ r.bottom := hwfr.1
  have hr2 : r.bottom - l + 1 ≤ (ROWS_PER_GRAPHIC : Int) := hwfr.2.1
  have hr3 : (r.bottom - l) * (si.cell_height : Int) < (r.height : Int) :=
    hwfr.2.2.1
  have hr4 : (r.height : Int) ≤ (r.bottom - l + 1) * (si.cell_height : Int) :=
    hwfr.2.2.2
  have hchI : (0 : Int) < (si.cell_height : Int) := by exact_mod_cast hch
  have hlook : alookup l st.graphics.attachments = some r :=
    alookup_eq_some_of_mem hinv.2 hwfs hrmem
  have hOYI : ((((st.g.line - l) * (si.cell_height : Int)).toNat : Nat) : Int)
      = (st.g.line - l) * (si.cell_height : Int) :=
    Int.toNat_of_nonneg (mul_nonneg (by omega) (by omega))
  -- The key-2 facts for the remaining surfaces after this one.
  have hremNext : ∀ x ∈ rem', r.bottom + 1 ≤ x := by
    intro x hx
    obtain ⟨hlx, _, rx, hrx1, _⟩ := hrem x hx
    have := below_of_key_lt hinv.2 hwfs hrmem hrx1 hlx
    omega
  simp only [blitStep, hlook]
  by_cases hnr : needResize si r st.g
  case pos =>
    simp only [if_pos hnr]
    -- Facts about the rebuilt surface.
    have hgone : ∀ e ∈ aremove l st.graphics.attachments, e.1 ≠ l :=
      alookup_aremove_self hinv.2 hwfs
    have hrmInv := storeInv_aremove hinv l
    have hSH : ((((r.bottom + 1 - l) * (si.cell_height : Int)).toNat : Nat) : Int)
        = (r.bottom + 1 - l) * (si.cell_height : Int) :=
      Int.toNat_of_nonneg (mul_nonneg (by omega) (by omega))
    have hNS : EntryWF si.cell_height (l,
        { texture := st.tex_next, column := min r.column st.g.column,
          bottom := r.bottom, cell_height := si.cell_height,
          width := max (si.cell_width * r.column + r.width)
              (si.cell_width * st.g.column + st.g.width)
            - si.cell_width * min r.column st.g.column,
          height := ((r.bottom + 1 - l) * (si.cell_height : Int)).toNat }) := by
      refine ⟨hr1, hr2, ?_, ?_⟩
      · show (r.bottom - l) * (si.cell_height : Int)
          < ((((r.bottom + 1 - l) * (si.cell_height : Int)).toNat : Nat) : Int)
        rw [hSH]
        have hid : (r.bottom + 1 - l) * (si.cell_height : Int)
            - (r.bottom - l) * (si.cell_height : Int)
            = (si.cell_height : Int) := by ring
        linarith
      · show ((((r.bottom + 1 - l) * (si.cell_height : Int)).toNat : Nat) : Int)
          ≤ (r.bottom - l + 1) * (si.cell_height : Int)
        rw [hSH]
        exact le_of_eq (by ring)
    have hd2 : ∀ e ∈ aremove l st.graphics.attachments,
        r.bottom < e.1 ∨ e.2.bottom < l := by
      intro e he
      have heA : e ∈ st.graphics.attachments :=
        (aremove_sublist l st.graphics.attachments).subset he
      have hne : e ≠ (l, r) := by
        intro heq
        exact hgone e he (by rw [heq])
      rcases pairwise_below_total hinv.2 heA hrmem hne with hb | hb
      · right; exact hb
      · left; exact hb
    have hSI2 := storeInv_insert hrmInv hNS hd2
    have hflag2 : (st.graphics.debug_attach_ok
        && (alookup l (aremove l st.graphics.attachments)).isNone) = true := by
      rw [hflag, alookup_eq_none_iff.mpr hgone]
      rfl
    have hOYle : ((st.g.line - l) * (si.cell_height : Int)).toNat
        ≤ ((r.bottom + 1 - l) * (si.cell_height : Int)).toNat := by
      have hmono : (st.g.line - l) * (si.cell_height : Int)
          ≤ (r.bottom + 1 - l) * (si.cell_height : Int) :=
        mul_le_mul_of_nonneg_right (by omega) (by omega)
      omega
    have hBHI : ((((r.bottom + 1 - l) * (si.cell_height : Int)).toNat
          - ((st.g.line - l) * (si.cell_height : Int)).toNat : Nat) : Int)
        = (r.bottom + 1 - st.g.line) * (si.cell_height : Int) := by
      rw [Nat.cast_sub hOYle, hSH, hOYI]
      ring
    have hBHpos : 0 < ((r.bottom + 1 - l) * (si.cell_height : Int)).toNat
        - ((st.g.line - l) * (si.cell_height : Int)).toNat := by
      have hge : (1 : Int) * (si.cell_height : Int)
          ≤ (r.bottom + 1 - st.g.line) * (si.cell_height : Int) :=
        mul_le_mul_of_nonneg_right (by omega) (by omega)
      omega
    split
    case isTrue hcons =>
      refine ⟨⟨hSI2.1, ?_⟩, ?_⟩
      · show (st.graphics.debug_attach_ok
          && (alookup l (aremove l st.graphics.attachments)).isNone) = true
        exact hflag2
      · intro hne
        exact absurd rfl hne
    case isFalse hcons =>
      have hBHlt : ((r.bottom + 1 - l) * (si.cell_height : Int)).toNat
          - ((st.g.line - l) * (si.cell_height : Int)).toNat
          < st.g.height := by omega
      have hhb' := hhb (by omega)
      have hsubI : ((st.g.height
            - (((r.bottom + 1 - l) * (si.cell_height : Int)).toNat
              - ((st.g.line - l) * (si.cell_height : Int)).toNat) : Nat) : Int)
          = (st.g.height : Int)
            - (r.bottom + 1 - st.g.line) * (si.cell_height : Int) := by
        rw [Nat.cast_sub hBHlt.le, hBHI]
      refine ⟨⟨hSI2.1, hflag2⟩, ?_⟩
      intro _
      refine ⟨hSI2.1, hflag2, ((by omega : line0 ≤ r.bottom + 1)), ?_, ?_, ?_,
        hsorted', ?_⟩
      · intro h0
        exfalso
        have h0' : st.g.height
            - (((r.bottom + 1 - l) * (si.cell_height : Int)).toNat
              - ((st.g.line - l) * (si.cell_height : Int)).toNat) = 0 := h0
        omega
      · intro _
        constructor
        · show (bottom0 - (r.bottom + 1)) * (si.cell_height : Int)
            < ((st.g.height
              - (((r.bottom + 1 - l) * (si.cell_height : Int)).toNat
                - ((st.g.line - l) * (si.cell_height : Int)).toNat) : Nat) : Int)
          rw [hsubI]
          have hring : (bottom0 - (r.bottom + 1)) * (si.cell_height : Int)
              + (r.bottom + 1 - st.g.line) * (si.cell_height : Int)
              = (bottom0 - st.g.line) * (si.cell_height : Int) := by ring
          linarith [hhb'.1]
        · show ((st.g.height
              - (((r.bottom + 1 - l) * (si.cell_height : Int)).toNat
                - ((st.g.line - l) * (si.cell_height : Int)).toNat) : Nat) : Int)
            ≤ (bottom0 - (r.bottom + 1) + 1) * (si.cell_height : Int)
          rw [hsubI]
          have hring : (bottom0 - (r.bottom + 1) + 1) * (si.cell_height : Int)
              + (r.bottom + 1 - st.g.line) * (si.cell_height : Int)
              = (bottom0 - st.g.line + 1) * (si.cell_height : Int) := by ring
          linarith [hhb'.2]
      · intro e he
        rcases (mem_ainsert hgone e).mp he with rfl | he'
        · exact Or.inr (Or.inl
            ((by omega : r.bottom < r.bottom + 1)))
        · have heA : e ∈ st.graphics.attachments :=
            (aremove_sublist l st.graphics.attachments).subset he'
          rcases hgap e heA with heq | hin | hc | hc
          · exact absurd heq (hgone e he')
          · exact Or.inl hin
          · refine Or.inr (Or.inl ?_)
            show e.2.bottom < r.bottom + 1
            omega
          · exact Or.inr (Or.inr hc)
      · intro x hx
        obtain ⟨hlx, hxb, rx, hrx1, hrx2⟩ := hrem x hx
        refine ⟨hxb, rx, ?_, hrx2, ?_⟩
        · exact (mem_ainsert hgone (x, rx)).mpr
            (Or.inr (mem_aremove_of_ne hrx1 (by omega)))
        · left
          show r.bottom + 1 ≤ x
          exact hremNext x hx
  case neg =>
    simp only [if_neg hnr]
    have hnr' := hnr
    unfold needResize at hnr'
    push_neg at hnr'
    have hmod : r.height % si.cell_height = 0 := hnr'.2.2
    have hD' : (((r.bottom - l).toNat : Nat) : Int) = r.bottom - l := by omega
    have hRHlow : (r.bottom - l).toNat * si.cell_height < r.height := by
      have : (((r.bottom - l).toNat * si.cell_height : Nat) : Int)
          < (r.height : Int) := by
        push_cast
        rw [hD']
        exact hr3
      exact_mod_cast this
    have hRHhigh : r.height ≤ ((r.bottom - l).toNat + 1) * si.cell_height := by
      have : (r.height : Int)
          ≤ (((r.bottom - l).toNat + 1 : Nat) : Int) * (si.cell_height : Int) := by
        push_cast
        rw [hD']
        exact hr4
      exact_mod_cast this
    have hRH : (r.height : Int) = (r.bottom + 1 - l) * (si.cell_height : Int) := by
      have hexact := mult_in_unit_interval si.cell_height (r.bottom - l).toNat
        r.height hch (Nat.dvd_of_mod_eq_zero hmod) hRHlow hRHhigh
      rw [hexact]
      push_cast
      rw [hD']
      ring
    have hOYle : ((st.g.line - l) * (si.cell_height : Int)).toNat ≤ r.height := by
      have hmono : (st.g.line - l) * (si.cell_height : Int)
          ≤ (r.bottom + 1 - l) * (si.cell_height : Int) :=
        mul_le_mul_of_nonneg_right (by omega) (by omega)
      omega
    have hBHI : ((r.height
          - ((st.g.line - l) * (si.cell_height : Int)).toNat : Nat) : Int)
        = (r.bottom + 1 - st.g.line) * (si.cell_height : Int) := by
      rw [Nat.cast_sub hOYle, hRH, hOYI]
      ring
    split
    case isTrue hcons =>
      refine ⟨⟨hinv, hflag⟩, ?_⟩
      intro hne
      exact absurd rfl hne
    case isFalse hcons =>
      have hBHlt : r.height
          - ((st.g.line - l) * (si.cell_height : Int)).toNat
          < st.g.height := by omega
      have hhb' := hhb (by omega)
      have hsubI : ((st.g.height
            - (r.height
              - ((st.g.line - l) * (si.cell_height : Int)).toNat) : Nat) : Int)
          = (st.g.height : Int)
            - (r.bottom + 1 - st.g.line) * (si.cell_height : Int) := by
        rw [Nat.cast_sub hBHlt.le, hBHI]
      refine ⟨⟨hinv, hflag⟩, ?_⟩
      intro _
      refine ⟨hinv, hflag, ((by omega : line0 ≤ r.bottom + 1)), ?_, ?_, ?_,
        hsorted', ?_⟩
      · intro h0
        exfalso
        have h0' : st.g.height
            - (r.height
              - ((st.g.line - l) * (si.cell_height : Int)).toNat) = 0 := h0
        omega
      · intro _
        constructor
        · show (bottom0 - (r.bottom + 1)) * (si.cell_height : Int)
            < ((st.g.height
              - (r.height
                - ((st.g.line - l) * (si.cell_height : Int)).toNat) : Nat) : Int)
          rw [hsubI]
          have hring : (bottom0 - (r.bottom + 1)) * (si.cell_height : Int)
              + (r.bottom + 1 - st.g.line) * (si.cell_height : Int)
              = (bottom0 - st.g.line) * (si.cell_height : Int) := by ring
          linarith [hhb'.1]
        · show ((st.g.height
              - (r.height
                - ((st.g.line - l) * (si.cell_height : Int)).toNat) : Nat) : Int)
            ≤ (bottom0 - (r.bottom + 1) + 1) * (si.cell_height : Int)
          rw [hsubI]
          have hring : (bottom0 - (r.bottom + 1) + 1) * (si.cell_height : Int)
              + (r.bottom + 1 - st.g.line) * (si.cell_height : Int)
              = (bottom0 - st.g.line + 1) * (si.cell_height : Int) := by ring
          linarith [hhb'.2]
      · intro e he
        rcases hgap e he with heq | hin | hc | hc
        · have her : e = (l, r) := mem_key_unique hinv.2 hwfs hrmem he heq
          rw [her]
          refine Or.inr (Or.inl ?_)
          show r.bottom < r.bottom + 1
          omega
        · exact Or.inl hin
        · refine Or.inr (Or.inl ?_)
          show e.2.bottom < r.bottom + 1
          omega
        · exact Or.inr (Or.inr hc)
      · intro x hx
        obtain ⟨hlx, hxb, rx, hrx1, hrx2⟩ := hrem x hx
        refine ⟨hxb, rx, hrx1, hrx2, ?_⟩
        left
        show r.bottom + 1 ≤ x
        exact hremNext x hx

/-- A fully consumed image stays consumed through the copy phase. -/
theorem blitStep_height_zero (si : SizeInfo) (st : AttachState) (l : Int)
    (hh : st.g.height = 0) : (blitStep si st l).g.height = 0 := by
  rcases halo : alookup l st.graphics.attachments with _ | surface
  · simp only [blitStep, halo]
    exact hh
  · simp only [blitStep, halo]
    by_cases hnr : needResize si surface st.g
    · simp only [if_pos hnr]
      rw [if_pos (by omega)]
    · simp only [if_neg hnr]
      rw [if_pos (by omega)]

/-- The loop of `attach_graphics` preserves the store invariant and the
assertion flag, and when it leaves rows unconsumed, the remainder starts
strictly below every remaining region except those already past the
original bottom row. -/
theorem attachLoop_inv (si : SizeInfo) (line0 bottom0 : Int)
    (hch : 0 < si.cell_height)
    (hspan : bottom0 - line0 + 1 ≤ (ROWS_PER_GRAPHIC : Int)) :
    ∀ (rem : List Int) (st : AttachState),
    LoopInv si line0 bottom0 st rem →
    (StoreInv si.cell_height (attachLoop si rem st).graphics.attachments ∧
      (attachLoop si rem st).graphics.debug_attach_ok = true) ∧
    (0 < (attachLoop si rem st).g.height →
      line0 ≤ (attachLoop si rem st).g.line ∧
      ((bottom0 - (attachLoop si rem st).g.line) * (si.cell_height : Int)
          < ((attachLoop si rem st).g.height : Int) ∧
        ((attachLoop si rem st).g.height : Int)
          ≤ (bottom0 - (attachLoop si rem st).g.line + 1)
              * (si.cell_height : Int)) ∧
      (∀ e ∈ (attachLoop si rem st).graphics.attachments,
        e.2.bottom < (attachLoop si rem st).g.line ∨ bottom0 < e.1)) := by
  intro rem
  induction rem with
  | nil =>
    intro st hinv
    obtain ⟨h1, h2, h3, h4, h5, h6, h7, h8⟩ := hinv
    refine ⟨⟨h1, h2⟩, ?_⟩
    intro hpos
    refine ⟨h3, h5 hpos, ?_⟩
    intro e he
    rcases h6 e he with hin | hc | hc
    · exact absurd hin (List.not_mem_nil _)
    · exact Or.inl hc
    · exact Or.inr hc
  | cons l rem' ih =>
    intro st hinv
    obtain ⟨h1, h2, h3, h4, h5, h6, h7, h8⟩ := hinv
    obtain ⟨hlb, r, hrmem, hlr, hlineOr⟩ := h8 l (List.mem_cons_self l rem')
    have hwfs : ∀ e ∈ st.graphics.attachments, e.1 ≤ e.2.bottom :=
      fun e he => (h1.1 e he).1
    have hwflr : l ≤ r.bottom := hwfs (l, r) hrmem
    have hgap' : ∀ e ∈ st.graphics.attachments,
        e.1 = l ∨ e.1 ∈ rem' ∨ e.2.bottom < st.g.line ∨ bottom0 < e.1 := by
      intro e he
      rcases h6 e he with hin | hc | hc
      · rcases List.mem_cons.mp hin with heq | hin'
        · exact Or.inl heq
        · exact Or.inr (Or.inl hin')
      · exact Or.inr (Or.inr (Or.inl hc))
      · exact Or.inr (Or.inr (Or.inr hc))
    have hremTail : ∀ x ∈ rem', x ≤ bottom0 ∧
        ∃ rx, (x, rx) ∈ st.graphics.attachments ∧ line0 ≤ rx.bottom := by
      intro x hx
      obtain ⟨hxb, rx, hrx1, hrx2, _⟩ := h8 x (List.mem_cons_of_mem l hx)
      exact ⟨hxb, rx, hrx1, hrx2⟩
    have hremStep : ∀ x ∈ rem', l < x ∧ x ≤ bottom0 ∧
        ∃ rx, (x, rx) ∈ st.graphics.attachments ∧ line0 ≤ rx.bottom := by
      intro x hx
      exact ⟨(List.pairwise_cons.mp h7).1 x hx, hremTail x hx⟩
    by_cases hh0 : st.g.height = 0
    · -- degenerate image: no upper split; the copy phase consumes nothing
      have hba := h4 hh0
      have hnosplit : ¬ st.g.line < l := by omega
      have hll : l ≤ st.g.line := by omega
      have hlrb : st.g.line ≤ r.bottom := by
        rcases hlineOr with hcase | hcase
        · omega
        · exact hcase
      have hblit := blitStep_inv si line0 bottom0 hch st l rem' r h1 h2 hrmem
        h3 hll hlrb (fun hpos => absurd hh0 (by omega)) hgap'
        (List.pairwise_cons.mp h7).2 hremStep
      have hz : (blitStep si st l).g.height = 0 :=
        blitStep_height_zero si st l hh0
      simp only [attachLoop, attachSurface, upperSplit_eq_self si st l hnosplit]
      rw [if_pos hz]
      refine ⟨hblit.1, ?_⟩
      intro hpos
      omega
    · have hposS : 0 < st.g.height := by omega
      have husp := upperSplit_inv si line0 bottom0 hch hspan st l rem' r h1 h2
        h3 (h5 hposS) hposS h6 h7 hlb hrmem hlineOr hremTail
      obtain ⟨s1, s2, s3, s4, s5, s6, s7, s8, s9, s10⟩ := husp
      have hblit := blitStep_inv si line0 bottom0 hch (upperSplit si st l) l
        rem' r s6 s7 s8 s2 s3 s4 (fun _ => s5) s9
        (List.pairwise_cons.mp h7).2 s10
      simp only [attachLoop, attachSurface]
      split
      next hzz =>
        refine ⟨hblit.1, ?_⟩
        intro hpos
        omega
      next hzz =>
        exact ih (blitStep si (upperSplit si st l) l) (hblit.2 hzz)

/-- A full `attach_graphics` call preserves the store invariant and the
assertion flag, provided the image spans at most `ROWS_PER_GRAPHIC` rows. -/
theorem attach_graphics_inv (si : SizeInfo) (store : Graphics)
    (cmds : List GraphicsCommand) (g : GraphicData) (tex : Nat)
    (hch : 0 < si.cell_height)
    (hrows : ceilDivNat g.height si.cell_height ≤ ROWS_PER_GRAPHIC)
    (hinv : StoreInv si.cell_height store.attachments)
    (hflag : store.debug_attach_ok = true) :
    StoreInv si.cell_height
      (attach_graphics si store cmds g tex).graphics.attachments ∧
    (attach_graphics si store cmds g tex).graphics.debug_attach_ok = true := by
  have hwfs : ∀ e ∈ store.attachments, e.1 ≤ e.2.bottom :=
    fun e he => (hinv.1 e he).1
  have hbeq : graphicBottom si g - g.line + 1
      = ((ceilDivNat g.height si.cell_height : Nat) : Int) := by
    unfold graphicBottom
    ring
  have hspan : graphicBottom si g - g.line + 1 ≤ (ROWS_PER_GRAPHIC : Int) := by
    rw [hbeq]
    exact_mod_cast hrows
  have hcspec := ceilDivNat_spec g.height si.cell_height hch
  have hinit : LoopInv si g.line (graphicBottom si g)
      { graphics := store, commands := cmds, g := g, tex_next := tex }
      (surfaceLines store g (graphicBottom si g)) := by
    refine ⟨hinv, hflag, le_refl g.line, ?_, ?_, ?_, ?_, ?_⟩
    · intro h0
      show graphicBottom si g < g.line
      have hc0 : ceilDivNat g.height si.cell_height = 0 := by
        unfold ceilDivNat
        rw [h0]
        exact Nat.div_eq_of_lt (by omega)
      unfold graphicBottom
      rw [hc0]
      omega
    · intro hpos
      have hcast : ((ceilDivNat g.height si.cell_height
            * si.cell_height : Nat) : Int)
          = (graphicBottom si g - g.line + 1) * (si.cell_height : Int) := by
        push_cast
        rw [hbeq]
      constructor
      · show (graphicBottom si g - g.line) * (si.cell_height : Int)
          < (g.height : Int)
        have h2 : ((ceilDivNat g.height si.cell_height
              * si.cell_height : Nat) : Int)
            < (g.height : Int) + (si.cell_height : Int) := by
          exact_mod_cast hcspec.2
        rw [hcast] at h2
        have hring : (graphicBottom si g - g.line) * (si.cell_height : Int)
            + (si.cell_height : Int)
            = (graphicBottom si g - g.line + 1) * (si.cell_height : Int) := by
          ring
        linarith
      · show (g.height : Int)
          ≤ (graphicBottom si g - g.line + 1) * (si.cell_height : Int)
        have h1 : (g.height : Int)
            ≤ ((ceilDivNat g.height si.cell_height
              * si.cell_height : Nat) : Int) := by
          exact_mod_cast hcspec.1
        rw [hcast] at h1
        exact h1
    · intro e he
      by_cases hpe : (decide (g.line - (ROWS_PER_GRAPHIC : Int) ≤ e.1)
          && decide (e.1 ≤ graphicBottom si g)
          && decide (g.line ≤ e.2.bottom)) = true
      · left
        unfold surfaceLines
        exact List.mem_map.mpr ⟨e, List.mem_filter.mpr ⟨he, hpe⟩, rfl⟩
      · right
        rw [Bool.not_eq_true] at hpe
        simp only [Bool.and_eq_false_iff, decide_eq_false_iff_not, not_le,
          not_lt] at hpe
        have hespan := (hinv.1 e he).2.1
        rcases hpe with (hc | hc) | hc
        · left
          show e.2.bottom < g.line
          omega
        · right
          omega
        · left
          show e.2.bottom < g.line
          omega
    · have hkeysP : store.attachments.Pairwise (fun a b => a.1 < b.1) := by
        refine (List.Pairwise.and_mem.mp hinv.2).imp ?_
        rintro a b ⟨ha, hb, hab⟩
        have := hwfs a ha
        have hab' : a.2.bottom < b.1 := hab
        omega
      unfold surfaceLines
      exact List.pairwise_map.mpr (hkeysP.filter _)
    · intro x hx
      unfold surfaceLines at hx
      obtain ⟨e, hef, heq⟩ := List.mem_map.mp hx
      obtain ⟨heA, hpe⟩ := List.mem_filter.mp hef
      simp only [Bool.and_eq_true, decide_eq_true_eq] at hpe
      obtain ⟨⟨hp1, hp2⟩, hp3⟩ := hpe
      subst heq
      refine ⟨hp2, e.2, ?_, hp3, Or.inr hp3⟩
      have : e = (e.1, e.2) := rfl
      rw [← this]
      exact heA
  obtain ⟨hloop1, hloop2⟩ := attachLoop_inv si g.line (graphicBottom si g) hch
    hspan (surfaceLines store g (graphicBottom si g))
    { graphics := store, commands := cmds, g := g, tex_next := tex } hinit
  simp only [attach_graphics]
  split
  case isTrue hpos =>
    obtain ⟨hl3, ⟨hlb1, hlb2⟩, hgapF⟩ := hloop2 hpos
    have hlineb : (attachLoop si (surfaceLines store g (graphicBottom si g))
        { graphics := store, commands := cmds, g := g,
          tex_next := tex }).g.line ≤ graphicBottom si g := by
      by_contra hcon
      push_neg at hcon
      have hle : graphicBottom si g
          - (attachLoop si (surfaceLines store g (graphicBottom si g))
            { graphics := store, commands := cmds, g := g,
              tex_next := tex }).g.line + 1 ≤ 0 := by omega
      have : (graphicBottom si g
          - (attachLoop si (surfaceLines store g (graphicBottom si g))
            { graphics := store, commands := cmds, g := g,
              tex_next := tex }).g.line + 1) * (si.cell_height : Int) ≤ 0 :=
        mul_nonpos_iff.mpr (Or.inr ⟨hle, by omega⟩)
      omega
    have hEntry : EntryWF si.cell_height
        ((attachLoop si (surfaceLines store g (graphicBottom si g))
          { graphics := store, commands := cmds, g := g,
            tex_next := tex }).g.line,
         { texture := (attachLoop si (surfaceLines store g (graphicBottom si g))
             { graphics := store, commands := cmds, g := g,
               tex_next := tex }).tex_next,
           column := (attachLoop si (surfaceLines store g (graphicBottom si g))
             { graphics := store, commands := cmds, g := g,
               tex_next := tex }).g.column,
           bottom := graphicBottom si g,
           cell_height := si.cell_height,
           width := (attachLoop si (surfaceLines store g (graphicBottom si g))
             { graphics := store, commands := cmds, g := g,
               tex_next := tex }).g.width,
           height := (attachLoop si (surfaceLines store g (graphicBottom si g))
             { graphics := store, commands := cmds, g := g,
               tex_next := tex }).g.height }) := by
      have hspan2 : graphicBottom si g
          - (attachLoop si (surfaceLines store g (graphicBottom si g))
            { graphics := store, commands := cmds, g := g,
              tex_next := tex }).g.line + 1 ≤ (ROWS_PER_GRAPHIC : Int) := by
        omega
      exact ⟨hlineb, hspan2, hlb1, hlb2⟩
    have hd : ∀ e ∈ (attachLoop si (surfaceLines store g (graphicBottom si g))
        { graphics := store, commands := cmds, g := g,
          tex_next := tex }).graphics.attachments,
        graphicBottom si g < e.1 ∨ e.2.bottom
          < (attachLoop si (surfaceLines store g (graphicBottom si g))
            { graphics := store, commands := cmds, g := g,
              tex_next := tex }).g.line := by
      intro e he
      rcases hgapF e he with hc | hc
      · exact Or.inr hc
      · exact Or.inl hc
    have hfin := storeInv_insert hloop1.1 hEntry hd
    refine ⟨hfin.1, ?_⟩
    show ((attachLoop si (surfaceLines store g (graphicBottom si g))
        { graphics := store, commands := cmds, g := g,
          tex_next := tex }).graphics.debug_attach_ok
      && (alookup (attachLoop si (surfaceLines store g (graphicBottom si g))
          { graphics := store, commands := cmds, g := g,
            tex_next := tex }).g.line
        (attachLoop si (surfaceLines store g (graphicBottom si g))
          { graphics := store, commands := cmds, g := g,
            tex_next := tex }).graphics.attachments).isNone) = true
    rw [hloop1.2, hfin.2]
    rfl
  case isFalse hpos =>
    exact hloop1

/-- Filtering the attachment index preserves the store invariant. -/
theorem storeInv_filter {ch : Nat} {l : List (Int × GraphicItem)}
    (p : Int × GraphicItem → Bool) (hinv : StoreInv ch l) :
    StoreInv ch (l.filter p) :=
  ⟨fun e he => hinv.1 e (List.mem_of_mem_filter he), hinv.2.filter p⟩

/-- Every single store operation preserves the store invariant and the
assertion flag, provided an attached image spans at most
`ROWS_PER_GRAPHIC` rows. -/
theorem applyOp_inv (si : SizeInfo) (hch : 0 < si.cell_height)
    (s : Graphics × Nat) (op : GOp) (hop : opRowsOk si op)
    (hinv : StoreInv si.cell_height s.1.attachments)
    (hflag : s.1.debug_attach_ok = true) :
    StoreInv si.cell_height (applyOp si s op).1.attachments ∧
    (applyOp si s op).1.debug_attach_ok = true := by
  cases op with
  | attach g =>
    exact attach_graphics_inv si s.1 [] g s.2 hch hop hinv hflag
  | clear =>
    exact ⟨⟨fun e he => absurd he (List.not_mem_nil e), List.Pairwise.nil⟩,
      hflag⟩
  | clear_range lo hi =>
    show StoreInv si.cell_height (s.1.clear_range lo hi).attachments ∧
      (s.1.clear_range lo hi).debug_attach_ok = true
    unfold Graphics.clear_range
    split
    · exact ⟨hinv, hflag⟩
    · exact ⟨storeInv_filter _ hinv, hflag⟩
  | move_base d h =>
    show StoreInv si.cell_height
        (s.1.move_base_position d h).attachments ∧
      (s.1.move_base_position d h).debug_attach_ok = true
    simp only [Graphics.move_base_position]
    split
    · exact ⟨storeInv_filter _ hinv, hflag⟩
    · exact ⟨hinv, hflag⟩

/-- Folding a sequence of operations over an invariant-satisfying state
preserves the store invariant and the assertion flag. -/
theorem foldl_applyOp_inv (si : SizeInfo) (hch : 0 < si.cell_height) :
    ∀ (ops : List GOp) (s : Graphics × Nat),
    (∀ op ∈ ops, opRowsOk si op) →
    StoreInv si.cell_height s.1.attachments →
    s.1.debug_attach_ok = true →
    StoreInv si.cell_height (ops.foldl (applyOp si) s).1.attachments ∧
    (ops.foldl (applyOp si) s).1.debug_attach_ok = true := by
  intro ops
  induction ops with
  | nil => intro s _ hinv hflag; exact ⟨hinv, hflag⟩
  | cons op rest ih =>
    intro s hops hinv hflag
    have h1 := applyOp_inv si hch s op (hops op (List.mem_cons_self op rest))
      hinv hflag
    exact ih (applyOp si s op) (fun o ho => hops o (List.mem_cons_of_mem op ho))
      h1.1 h1.2

/-- C10 (amended): when the attachment index satisfies the full store
invariant (disjoint ascending regions whose pixel heights match their row
spans) as an attach begins, the cell height is positive and the image spans
at most `ROWS_PER_GRAPHIC` rows, the assertion inside `Graphics::attach`
holds at every insertion point of `attach_graphics`: the flag mirroring the
`debug_assert!` stays `true`. -/
theorem c10_attach_assert (si : SizeInfo) (store : Graphics)
    (cmds : List GraphicsCommand) (g : GraphicData) (tex : Nat)
    (hch : 0 < si.cell_height)
    (hrows : ceilDivNat g.height si.cell_height ≤ ROWS_PER_GRAPHIC)
    (hinv : StoreInv si.cell_height store.attachments)
    (hflag : store.debug_attach_ok = true) :
    (attach_graphics si store cmds g tex).graphics.debug_attach_ok = true :=
  (attach_graphics_inv si store cmds g tex hch hrows hinv hflag).2

/-- C10 counterexample: a store whose regions are pairwise disjoint (the
claim's stated precondition) but whose first region's pixel height does not
match its row span makes the assertion fail: attaching `c10img` ends with
the flag `false`. -/
theorem c10_counterexample :
    c10store.attachments.Pairwise regionsDisjoint ∧
    c10store.debug_attach_ok = true ∧
    (attach_graphics ⟨2, 4⟩ c10store [] c10img 5).graphics.debug_attach_ok
      = false := by
  exact ⟨by decide, by decide, by decide⟩

/-- C10 witness: the amended statement applied to `c10img` on the empty
store. -/
theorem c10_witness :
    0 < (⟨2, 4⟩ : SizeInfo).cell_height ∧
    ceilDivNat c10img.height 4 ≤ ROWS_PER_GRAPHIC ∧
    StoreInv 4 Graphics.default.attachments ∧
    Graphics.default.debug_attach_ok = true ∧
    (attach_graphics ⟨2, 4⟩ Graphics.default [] c10img 5).graphics.debug_attach_ok
      = true :=
  ⟨by decide, by decide, by decide, by decide,
    c10_attach_assert ⟨2, 4⟩ Graphics.default [] c10img 5 (by decide)
      (by decide) (by decide) (by decide)⟩

/-- C1 (amended): starting from the empty store, after any sequence of
attach, clear, clear_range and move_base_position operations at positive
cell height in which every attached image spans at most
`ROWS_PER_GRAPHIC` grid rows, no two regions of the attachment index have
overlapping row intervals. -/
theorem c1_no_overlap (si : SizeInfo) (ops : List GOp)
    (hch : 0 < si.cell_height)
    (hops : ∀ op ∈ ops, opRowsOk si op) :
    (runOps si ops).1.attachments.Pairwise regionsDisjoint := by
  have h := foldl_applyOp_inv si hch ops (Graphics.default, 0) hops
    ⟨fun e he => absurd he (List.not_mem_nil e), List.Pairwise.nil⟩ rfl
  exact h.1.2.imp (fun hb => Or.inl hb)

/-- C1 counterexample: a 1500px-high image at cell height 1 spans more rows
than the bounded range query of `attach_graphics` looks back, so a second
attach 1200 rows below it escapes the overlap resolution: the resulting
regions [0,1499] and [1200,1200] overlap. -/
theorem c1_counterexample :
    (runOps ⟨1, 1⟩ [GOp.attach c1imgA, GOp.attach c1imgB]).1.attachments.map
        (fun e => (e.1, e.2.bottom)) = [(0, 1499), (1200, 1200)] ∧
    decide ((runOps ⟨1, 1⟩ [GOp.attach c1imgA,
        GOp.attach c1imgB]).1.attachments.Pairwise regionsDisjoint) = false := by
  exact ⟨by decide, by decide⟩

/-- C1 witness: the amended statement applied to a one-row attach. -/
theorem c1_witness :
    0 < (⟨2, 4⟩ : SizeInfo).cell_height ∧
    (∀ op ∈ [GOp.attach c1imgB], opRowsOk (⟨2, 4⟩ : SizeInfo) op) ∧
    (runOps ⟨2, 4⟩ [GOp.attach c1imgB]).1.attachments.Pairwise
      regionsDisjoint :=
  ⟨by decide, by decide,
    c1_no_overlap ⟨2, 4⟩ [GOp.attach c1imgB] (by decide) (by decide)⟩

end AlacrittyGraphics
